import Mathlib

/-!
# Artemis2Tachi: the score-record transformation

A shallow embedding of `chunithm_to_tachi.go` and `ongeki_to_tachi.go`:
the two functions that turn the play-log rows of one player into a Tachi
batch-manual document, `fetchChuniTachiExport` and `fetchOngekiExport`.

Conventions of the embedding.

* The database is replaced by what it delivers: the result of the profile
  query, the result of the play-log query, and for each row the result of
  `rows.Scan` (a scanned row or the driver's error).
* `sql.NullInt64`, `sql.NullInt32`, `sql.NullBool` and `sql.NullString` are
  `Option`s; the Go fields `Valid`, `Int64`, `Int32`, `Bool` and `String` are
  the accessor functions below (`Scan` leaves the zero value in an absent
  column).
* Go's `int` is taken to be 64 bits wide, so `int(x)` of an `int64` or an
  `int32` is `x`; sums of `int64` values wrap.
* A Go slice is either nil or a non-nil sequence (`Slice`); a runtime panic is
  the outcome `fault`.
* `time.Parse` belongs to the Go standard library; the functions take it as
  the parameter `timeParse` (the layout argument is the constant
  `"2006-01-02 15:04:05"` at both call sites). Properties of control flow are
  proved for every parser; the values of `timeAchieved` are proved for
  `parseLayout`, the parser of strings in the layout `YYYY-MM-DD hh:mm:ss`.
-/

namespace Artemis2Tachi

/-! ## Go values -/

/-- The bytes of a Go string (Go strings are byte sequences; text is UTF-8). -/
def goBytes (s : String) : List UInt8 := s.toUTF8.data.toList

/-- The slice expression `s[:n]` on a string: its first `n` bytes, or `none`
when `n` exceeds the length (Go panics: slice bounds out of range). -/
def sliceTo (s : String) (n : Nat) : Option (List UInt8) :=
  if n ≤ (goBytes s).length then some ((goBytes s).take n) else none

/-- The index expression `xs[i]` with an `int64` index: `none` when the index
is negative or not below the length (Go panics: index out of range). -/
def indexAt {α : Type} (xs : List α) (i : Int) : Option α :=
  if 0 ≤ i then xs[i.toNat]? else none

/-- Two's-complement wrap-around of an `int64` computation. -/
def wrapInt64 (x : Int) : Int := (x + 2 ^ 63) % 2 ^ 64 - 2 ^ 63

/-- A Go slice: the nil slice, or a non-nil slice with its elements. -/
inductive Slice (α : Type) where
  | nil : Slice α
  | elems (xs : List α) : Slice α
  deriving DecidableEq

/-- The built-in `append(s, x)`: appending to the nil slice allocates. -/
def Slice.append {α : Type} : Slice α → α → Slice α
  | .nil, x => .elems [x]
  | .elems xs, x => .elems (xs ++ [x])

/-- The elements of a slice, in order (none for the nil slice). -/
def Slice.toList {α : Type} : Slice α → List α
  | .nil => []
  | .elems xs => xs

/-- The shape of the JSON value that `encoding/json` writes for a slice. -/
inductive JSONShape where
  | null : JSONShape
  | array (len : Nat) : JSONShape
  deriving DecidableEq

/-- How `json.MarshalIndent` renders a slice-typed field without `omitempty`:
a nil slice becomes `null`, a non-nil slice an array of its elements. -/
def marshalSlice {α : Type} : Slice α → JSONShape
  | .nil => .null
  | .elems xs => .array xs.length

/-- The type `sql.NullInt64`. -/
abbrev NullInt64 := Option Int

/-- The type `sql.NullInt32`. -/
abbrev NullInt32 := Option Int

/-- The type `sql.NullBool`. -/
abbrev NullBool := Option Bool

/-- The type `sql.NullString`. -/
abbrev NullString := Option String

/-- Field `Valid` of `sql.NullInt64`. -/
def NullInt64.Valid (x : NullInt64) : Bool := Option.isSome x

/-- Field `Int64` of `sql.NullInt64` (0 when the column is NULL). -/
def NullInt64.Int64 (x : NullInt64) : Int := Option.getD x 0

/-- Field `Valid` of `sql.NullInt32`. -/
def NullInt32.Valid (x : NullInt32) : Bool := Option.isSome x

/-- Field `Int32` of `sql.NullInt32` (0 when the column is NULL). -/
def NullInt32.Int32 (x : NullInt32) : Int := Option.getD x 0

/-- Field `Valid` of `sql.NullBool`. -/
def NullBool.Valid (x : NullBool) : Bool := Option.isSome x

/-- Field `Bool` of `sql.NullBool` (false when the column is NULL). -/
def NullBool.Bool (x : NullBool) : Bool := Option.getD x false

/-- Field `Valid` of `sql.NullString`. -/
def NullString.Valid (x : NullString) : Bool := Option.isSome x

/-- Field `String` of `sql.NullString` (empty when the column is NULL). -/
def NullString.String (x : NullString) : String := Option.getD x ""

/-- A `time.Time` as far as the exporters read it: seconds since the epoch and
the nanoseconds within the second. -/
structure Time where
  sec : Int
  nsec : Nat
  deriving DecidableEq

/-- Method `Time.Unix`. -/
def Time.Unix (t : Time) : Int := t.sec

/-- Method `Time.UnixMilli`. -/
def Time.UnixMilli (t : Time) : Int :=
  wrapInt64 (wrapInt64 (t.sec * 1000) + (t.nsec : Int) / 1000000)

/-- What a function returning `(*T, error)` can do: return a value, return an
error, or panic. -/
inductive Outcome (α : Type) where
  | ok (v : α) : Outcome α
  | error (err : String) : Outcome α
  | fault (msg : String) : Outcome α
  deriving DecidableEq

/-- What one pass through the body of a row loop can do: `continue` without a
record, reach the `append` with a record, return an error, or panic. -/
inductive Step (α : Type) where
  | skip : Step α
  | emit (score : α) : Step α
  | error (err : String) : Step α
  | fault (msg : String) : Step α
  deriving DecidableEq

/-- The `meta` block of both documents. -/
structure Meta where
  Game : String
  Playtype : String
  Service : String
  deriving DecidableEq

/-! ## chunithm_to_tachi.go -/

/-- The string type `BatchManualLampChuni`. -/
abbrev BatchManualLampChuni := String

/-- Lamp constant `AllJusticeCritical`. -/
def AllJusticeCritical : BatchManualLampChuni := "ALL JUSTICE CRITICAL"

/-- Lamp constant `AllJustice`. -/
def AllJustice : BatchManualLampChuni := "ALL JUSTICE"

/-- Lamp constant `FullCombo`. -/
def FullCombo : BatchManualLampChuni := "FULL COMBO"

/-- Lamp constant `Clear`. -/
def Clear : BatchManualLampChuni := "CLEAR"

/-- Lamp constant `Failed`. -/
def Failed : BatchManualLampChuni := "FAILED"

/-- The anonymous struct behind `BatchManualScoreChuni.Judgements`. -/
structure JudgementsChuni where
  JCrit : Int
  Justice : Int
  Attack : Int
  Miss : Int
  deriving DecidableEq

/-- The anonymous struct behind `BatchManualScoreChuni.Optional`. -/
structure OptionalChuni where
  MaxCombo : Int
  deriving DecidableEq

/-- The struct `BatchManualScoreChuni`; the three pointer fields are options
(`nil` is `none`, and `omitempty` leaves a nil pointer out of the JSON). -/
structure BatchManualScoreChuni where
  Identifier : String
  MatchType : String
  Score : Int
  Lamp : BatchManualLampChuni
  Difficulty : String
  TimeAchieved : Option Int
  Judgements : Option JudgementsChuni
  Optional : Option OptionalChuni
  deriving DecidableEq

/-- The anonymous struct behind `BatchManualImportChuni.Classes`. -/
structure ClassesChuni where
  Dan : Option String
  Emblem : Option String
  deriving DecidableEq

/-- The struct `BatchManualImportChuni`. -/
structure BatchManualImportChuni where
  Meta : Meta
  Scores : Slice BatchManualScoreChuni
  Classes : Option ClassesChuni
  deriving DecidableEq

/-- The local struct `playlog` of `fetchChuniTachiExport`: one scanned row of
`chuni_score_playlog`. -/
structure ChuniPlaylog where
  RomVersion : NullString
  UserPlayDate : NullString
  MusicID : NullInt64
  Level : NullInt64
  Score : NullInt64
  MaxCombo : NullInt64
  JudgeGuilty : NullInt64
  JudgeAttack : NullInt64
  JudgeJustice : NullInt64
  JudgeCritical : NullInt64
  JudgeHeaven : NullInt64
  IsFullCombo : NullBool
  IsAllJustice : NullBool
  IsClear : NullBool
  deriving DecidableEq

/-- Function `getChuniTachiClass`: a pointer into the table of class names, or
nil when the index is outside it. -/
def getChuniTachiClass (cls : Int) : Option String :=
  let tachiClasses : List String :=
    ["", "DAN_I", "DAN_II", "DAN_III", "DAN_IV", "DAN_V", "DAN_INFINITE"]
  if 0 ≤ cls ∧ cls < (tachiClasses.length : Int) then tachiClasses[cls.toNat]? else none

/-- The required-field test of `fetchChuniTachiExport` (line 92): true when the
row is passed over with `continue`. -/
def chuniMissingRequired (p : ChuniPlaylog) : Bool :=
  !p.RomVersion.Valid || !p.MusicID.Valid || !p.Level.Valid || !p.Score.Valid ||
    !p.JudgeJustice.Valid || !p.IsAllJustice.Valid || !p.IsFullCombo.Valid || !p.IsClear.Valid

/-- The WORLD'S END test of `fetchChuniTachiExport` (line 97), with Go's
left-to-right short-circuit evaluation; `none` when a slice expression
`RomVersion.String[:2]` panics. -/
def chuniWorldsEnd (p : ChuniPlaylog) : Option Bool :=
  match sliceTo p.RomVersion.String 2 with
  | none => none
  | some v1 =>
    if (v1 == goBytes "1." && p.Level.Int64 == 4) = true then some true
    else
      match sliceTo p.RomVersion.String 2 with
      | none => none
      | some v2 => some (v2 == goBytes "2." && p.Level.Int64 == 5)

/-- The lamp chain of `fetchChuniTachiExport` (lines 101 to 112). -/
def chuniLamp (p : ChuniPlaylog) : BatchManualLampChuni :=
  if (p.IsAllJustice.Bool && p.JudgeJustice.Int64 == 0) = true then AllJusticeCritical
  else if p.IsAllJustice.Bool = true then AllJustice
  else if p.IsFullCombo.Bool = true then FullCombo
  else if p.IsClear.Bool = true then Clear
  else Failed

/-- The difficulty table indexed at line 119. -/
def chuniDifficulties : List String := ["BASIC", "ADVANCED", "EXPERT", "MASTER", "ULTIMA"]

/-- The `timeAchieved` block of `fetchChuniTachiExport` (lines 122 to 128): a
parse error leaves the field nil. -/
def chuniTimeAchieved (timeParse : String → Except String Time) (p : ChuniPlaylog) :
    Option Int :=
  if p.UserPlayDate.Valid = true then
    match timeParse p.UserPlayDate.String with
    | .ok playDate => some playDate.Unix
    | .error _ => none
  else none

/-- The `judgements` block of `fetchChuniTachiExport` (lines 130 to 142). -/
def chuniJudgements (p : ChuniPlaylog) : Option JudgementsChuni :=
  if (p.JudgeCritical.Valid && p.JudgeJustice.Valid && p.JudgeAttack.Valid &&
      p.JudgeGuilty.Valid) = true then
    some
      { JCrit := wrapInt64 (p.JudgeHeaven.Int64 + p.JudgeCritical.Int64)
        Justice := p.JudgeJustice.Int64
        Attack := p.JudgeAttack.Int64
        Miss := p.JudgeGuilty.Int64 }
  else none

/-- The `optional` block of `fetchChuniTachiExport` (lines 144 to 150). -/
def chuniOptional (p : ChuniPlaylog) : Option OptionalChuni :=
  if p.MaxCombo.Valid = true then some { MaxCombo := p.MaxCombo.Int64 } else none

/-- The body of the row loop of `fetchChuniTachiExport` after a successful
`rows.Scan` (lines 92 to 152). -/
def chuniRow (timeParse : String → Except String Time) (p : ChuniPlaylog) :
    Step BatchManualScoreChuni :=
  if chuniMissingRequired p = true then .skip
  else
    match chuniWorldsEnd p with
    | none => .fault "slice bounds out of range"
    | some true => .skip
    | some false =>
      match indexAt chuniDifficulties p.Level.Int64 with
      | none => .fault "index out of range"
      | some difficulty =>
        .emit
          { Identifier := toString p.MusicID.Int64
            MatchType := "inGameID"
            Score := p.Score.Int64
            Lamp := chuniLamp p
            Difficulty := difficulty
            TimeAchieved := chuniTimeAchieved timeParse p
            Judgements := chuniJudgements p
            Optional := chuniOptional p }

/-- The row loop of `fetchChuniTachiExport` (lines 69 to 153): `scores` is the
slice `tachiExport.Scores` built so far. -/
def chuniLoop (timeParse : String → Except String Time) :
    List (Except String ChuniPlaylog) → Slice BatchManualScoreChuni →
      Outcome (Slice BatchManualScoreChuni)
  | [], scores => .ok scores
  | .error err :: _, _ => .error err
  | .ok p :: rest, scores =>
    match chuniRow timeParse p with
    | .skip => chuniLoop timeParse rest scores
    | .emit tachiScore => chuniLoop timeParse rest (scores.append tachiScore)
    | .error err => .error err
    | .fault msg => .fault msg

/-- Function `fetchChuniTachiExport`. `profile` is the result of the profile
query (`classEmblemBase`, `classEmblemMedal`), `query` the result of the
play-log query with the result of `rows.Scan` for each row. -/
def fetchChuniTachiExport (timeParse : String → Except String Time)
    (profile : Except String (Int × Int))
    (query : Except String (List (Except String ChuniPlaylog))) :
    Outcome BatchManualImportChuni :=
  match profile with
  | .error err => .error err
  | .ok (classEmblemBase, classEmblemMedal) =>
    match query with
    | .error err => .error err
    | .ok rows =>
      match chuniLoop timeParse rows .nil with
      | .error err => .error err
      | .fault msg => .fault msg
      | .ok scores =>
        .ok
          { Meta := { Game := "chunithm", Playtype := "Single", Service := "Cozynet" }
            Scores := scores
            Classes :=
              some
                { Dan := getChuniTachiClass classEmblemBase
                  Emblem := getChuniTachiClass classEmblemMedal } }

/-! ## ongeki_to_tachi.go -/

/-- The string type `BatchManualLampGeki`. -/
abbrev BatchManualLampGeki := String

/-- Constant `TIME_OFFSET`. -/
def TIME_OFFSET : Int := 9 * 3600 * 1000

/-- Lamp constant `AllBreak`. -/
def AllBreak : BatchManualLampGeki := "ALL BREAK"

/-- Lamp constant `FullComboGeki`. -/
def FullComboGeki : BatchManualLampGeki := "FULL COMBO"

/-- Lamp constant `FullBell`. -/
def FullBell : BatchManualLampGeki := "FULL BELL"

/-- Lamp constant `ClearGeki`. -/
def ClearGeki : BatchManualLampGeki := "CLEAR"

/-- Lamp constant `Loss`. -/
def Loss : BatchManualLampGeki := "LOSS"

/-- The map `DIFFICULTY_MAP`, as its key-value pairs. -/
def DIFFICULTY_MAP : List (Int × String) :=
  [(0, "BASIC"), (1, "ADVANCED"), (2, "EXPERT"), (3, "MASTER"), (10, "LUNATIC")]

/-- The anonymous struct behind `BatchManualScoreGeki.Judgements`. -/
structure JudgementsGeki where
  CBreak : Int
  Break : Int
  Hit : Int
  Miss : Int
  deriving DecidableEq

/-- The anonymous struct behind `BatchManualScoreGeki.Optional`. -/
structure OptionalGeki where
  MaxCombo : Int
  Damage : Int
  BellCount : Int
  TotalBellCount : Int
  PlatScore : Int
  deriving DecidableEq

/-- The struct `BatchManualScoreGeki`. -/
structure BatchManualScoreGeki where
  Identifier : String
  MatchType : String
  Score : Int
  Lamp : BatchManualLampGeki
  Difficulty : String
  TimeAchieved : Option Int
  Judgements : Option JudgementsGeki
  Optional : Option OptionalGeki
  deriving DecidableEq

/-- The struct `BatchManualImportGeki`. -/
structure BatchManualImportGeki where
  Meta : Meta
  Scores : Slice BatchManualScoreGeki
  deriving DecidableEq

/-- The local struct `playlog` of `fetchOngekiExport`: one scanned row of
`ongeki_score_playlog`. -/
structure OngekiPlaylog where
  UserPlayDate : NullString
  MusicID : NullInt32
  ClearStatus : NullInt32
  Difficulty : NullInt32
  TechScore : NullInt32
  MaxCombo : NullInt32
  JudgeMiss : NullInt32
  JudgeHit : NullInt32
  JudgeBreak : NullInt32
  JudgeCriticalBreak : NullInt32
  BellCount : NullInt32
  DamageCount : NullInt32
  IsFullCombo : NullInt32
  IsFullBell : NullInt32
  IsAllBreak : NullInt32
  PlatinumScore : NullInt32
  TotalBellCount : NullInt32
  deriving DecidableEq

/-- The lamp switch of `fetchOngekiExport` (lines 115 to 128): the first case
that holds, in the order written. -/
def ongekiLamp (p : OngekiPlaylog) : BatchManualLampGeki :=
  if (p.IsAllBreak.Valid && p.IsAllBreak.Int32 == 1) = true then AllBreak
  else if (p.IsFullCombo.Valid && p.IsFullCombo.Int32 == 1) = true then FullComboGeki
  else if (p.IsFullBell.Valid && p.IsFullBell.Int32 == 1) = true then FullBell
  else if (p.ClearStatus.Valid && decide (p.ClearStatus.Int32 > 0)) = true then ClearGeki
  else Loss

/-- The difficulty conversion of `fetchOngekiExport` (lines 130 to 134): the
two-value map read, with `UNKNOWN` for a missing key. -/
def ongekiDifficulty (p : OngekiPlaylog) : String :=
  match DIFFICULTY_MAP.lookup p.Difficulty.Int32 with
  | some difficulty => difficulty
  | none => "UNKNOWN"

/-- The body of the row loop of `fetchOngekiExport` after a successful
`rows.Scan` (lines 115 to 185). -/
def ongekiRow (timeParse : String → Except String Time) (p : OngekiPlaylog) :
    Step BatchManualScoreGeki :=
  let lamp := ongekiLamp p
  let difficulty := ongekiDifficulty p
  let timeAchieved : Except String (Option Int) :=
    if p.UserPlayDate.Valid = true then
      match timeParse p.UserPlayDate.String with
      | .error err => .error ("failed to parse userPlayDate: " ++ err)
      | .ok parsedTime => .ok (some (wrapInt64 (parsedTime.UnixMilli + TIME_OFFSET)))
    else .ok none
  match timeAchieved with
  | .error err => .error err
  | .ok timeAchieved =>
    .emit
      { Identifier := toString p.MusicID.Int32
        MatchType := "inGameID"
        Score := p.TechScore.Int32
        Lamp := lamp
        Difficulty := difficulty
        TimeAchieved := timeAchieved
        Judgements :=
          some
            { CBreak := p.JudgeCriticalBreak.Int32
              Break := p.JudgeBreak.Int32
              Hit := p.JudgeHit.Int32
              Miss := p.JudgeMiss.Int32 }
        Optional :=
          some
            { MaxCombo := p.MaxCombo.Int32
              Damage := p.DamageCount.Int32
              BellCount := p.BellCount.Int32
              TotalBellCount := p.TotalBellCount.Int32
              PlatScore := p.PlatinumScore.Int32 } }

/-- The row loop of `fetchOngekiExport` (lines 83 to 186). -/
def ongekiLoop (timeParse : String → Except String Time) :
    List (Except String OngekiPlaylog) → Slice BatchManualScoreGeki →
      Outcome (Slice BatchManualScoreGeki)
  | [], scores => .ok scores
  | .error err :: _, _ => .error ("failed to scan playlog row: " ++ err)
  | .ok p :: rest, scores =>
    match ongekiRow timeParse p with
    | .skip => ongekiLoop timeParse rest scores
    | .emit score => ongekiLoop timeParse rest (scores.append score)
    | .error err => .error err
    | .fault msg => .fault msg

/-- Function `fetchOngekiExport`. `query` is the result of the play-log query
with the result of `rows.Scan` for each row. -/
def fetchOngekiExport (timeParse : String → Except String Time)
    (query : Except String (List (Except String OngekiPlaylog))) :
    Outcome BatchManualImportGeki :=
  match query with
  | .error err => .error ("failed to fetch playlog: " ++ err)
  | .ok rows =>
    match
      ongekiLoop timeParse rows (.elems [])
    with
    | .error err => .error err
    | .fault msg => .fault msg
    | .ok scores =>
      .ok
        { Meta := { Game := "ongeki", Playtype := "Single", Service := "batch-artemis-export" }
          Scores := scores }

/-! ## Vocabulary of the properties -/

/-- The rows of a query result that reach the `append` of
`fetchChuniTachiExport`: scanned rows that the loop body does not pass over. -/
def chuniKept (timeParse : String → Except String Time)
    (rows : List (Except String ChuniPlaylog)) : List ChuniPlaylog :=
  rows.filterMap fun r =>
    match r with
    | .ok p => if chuniRow timeParse p = .skip then none else some p
    | .error _ => none

/-- All eight columns that `fetchChuniTachiExport` requires are present. -/
def chuniRequiredPresent (p : ChuniPlaylog) : Prop :=
  p.RomVersion ≠ none ∧ p.MusicID ≠ none ∧ p.Level ≠ none ∧ p.Score ≠ none ∧
    p.JudgeJustice ≠ none ∧ p.IsAllJustice ≠ none ∧ p.IsFullCombo ≠ none ∧ p.IsClear ≠ none

/-- The Chunithm lamp as the specification words it, on the values of the
flags of a row in which they are present. -/
def chuniLampSpec (isAllJustice isFullCombo isClear : Bool) (judgeJustice : Int) : String :=
  if isAllJustice = true ∧ judgeJustice = 0 then "ALL JUSTICE CRITICAL"
  else if isAllJustice = true then "ALL JUSTICE"
  else if isFullCombo = true then "FULL COMBO"
  else if isClear = true then "CLEAR"
  else "FAILED"

/-- A flag column of an Ongeki row counts as set when it is present with the
value 1. -/
def flagSet (x : NullInt32) : Bool := x == some 1

/-- The column `clearStatus` counts as set when it is present and positive. -/
def clearSet (x : NullInt32) : Bool :=
  match x with
  | some c => decide (0 < c)
  | none => false

/-- The Ongeki lamp under the order LOSS < CLEAR < FULL COMBO < FULL BELL <
ALL BREAK: the strongest outcome whose flag is set. -/
def ongekiLampBellAboveCombo (p : OngekiPlaylog) : String :=
  if flagSet p.IsAllBreak = true then "ALL BREAK"
  else if flagSet p.IsFullBell = true then "FULL BELL"
  else if flagSet p.IsFullCombo = true then "FULL COMBO"
  else if clearSet p.ClearStatus = true then "CLEAR"
  else "LOSS"

/-- The Ongeki lamp under the order LOSS < CLEAR < FULL BELL < FULL COMBO <
ALL BREAK: the strongest outcome whose flag is set. -/
def ongekiLampComboAboveBell (p : OngekiPlaylog) : String :=
  if flagSet p.IsAllBreak = true then "ALL BREAK"
  else if flagSet p.IsFullCombo = true then "FULL COMBO"
  else if flagSet p.IsFullBell = true then "FULL BELL"
  else if clearSet p.ClearStatus = true then "CLEAR"
  else "LOSS"

/-- The Ongeki difficulty label of a code, as the specification lists it. -/
def ongekiLabelSpec (c : Int) : String :=
  if c = 0 then "BASIC"
  else if c = 1 then "ADVANCED"
  else if c = 2 then "EXPERT"
  else if c = 3 then "MASTER"
  else if c = 10 then "LUNATIC"
  else "UNKNOWN"

/-- Applying a function to the elements of a slice; the nil slice stays nil. -/
def Slice.map {α β : Type} (f : α → β) : Slice α → Slice β
  | .nil => .nil
  | .elems xs => .elems (xs.map f)

/-- Applying a function to the value an outcome returns. -/
def Outcome.map {α β : Type} (f : α → β) : Outcome α → Outcome β
  | .ok v => .ok (f v)
  | .error err => .error err
  | .fault msg => .fault msg

/-- Applying a function to the record a pass through a loop body appends. -/
def Step.map {α β : Type} (f : α → β) : Step α → Step β
  | .skip => .skip
  | .emit score => .emit (f score)
  | .error err => .error err
  | .fault msg => .fault msg

/-- A Chunithm record with its `timeAchieved` left out. -/
def chuniScoreWithoutTime (s : BatchManualScoreChuni) : BatchManualScoreChuni :=
  { s with TimeAchieved := none }

/-- A Chunithm document with the `timeAchieved` of every record left out. -/
def chuniDocWithoutTimes (doc : BatchManualImportChuni) : BatchManualImportChuni :=
  { doc with Scores := doc.Scores.map chuniScoreWithoutTime }

/-- A Chunithm row with its userPlayDate made absent. -/
def chuniRowWithoutDate (p : ChuniPlaylog) : ChuniPlaylog := { p with UserPlayDate := none }

/-- The badge of a class code as the specification lists it: the six named
tiers for 1 to 6, the empty string for 0, and no badge for any other code. -/
def chuniClassSpec (i : Int) : Option String :=
  if i = 1 then some "DAN_I"
  else if i = 2 then some "DAN_II"
  else if i = 3 then some "DAN_III"
  else if i = 4 then some "DAN_IV"
  else if i = 5 then some "DAN_V"
  else if i = 6 then some "DAN_INFINITE"
  else if i = 0 then some ""
  else none

/-- The Chunithm difficulty label of a level from 0 to 4, as the specification
lists it. -/
def chuniLabelSpec (level : Int) : String :=
  if level = 0 then "BASIC"
  else if level = 1 then "ADVANCED"
  else if level = 2 then "EXPERT"
  else if level = 3 then "MASTER"
  else "ULTIMA"

/-! ## The layout of userPlayDate -/

/-- A stand-in for `time.Parse` at the concrete inputs below: it knows one
date and rejects every other string. -/
def timeParseSample (value : String) : Except String Time :=
  if value = "2024-01-01 12:00:00" then .ok { sec := 1704110400, nsec := 0 }
  else .error "cannot parse"

/-- A Chunithm row with every column present: an ALL JUSTICE play of an ULTIMA
chart without a single JUSTICE. -/
def chuniRowFull : ChuniPlaylog :=
  { RomVersion := some "2.00", UserPlayDate := some "2024-01-01 12:00:00", MusicID := some 3,
    Level := some 4, Score := some 1010000, MaxCombo := some 500, JudgeGuilty := some 0,
    JudgeAttack := some 0, JudgeJustice := some 0, JudgeCritical := some 100,
    JudgeHeaven := some 400, IsFullCombo := some false, IsAllJustice := some true,
    IsClear := some false }

/-- The record that `chuniRowFull` is exported as. -/
def chuniScoreFull : BatchManualScoreChuni :=
  { Identifier := "3", MatchType := "inGameID", Score := 1010000,
    Lamp := "ALL JUSTICE CRITICAL", Difficulty := "ULTIMA", TimeAchieved := some 1704110400,
    Judgements := some { JCrit := 500, Justice := 0, Attack := 0, Miss := 0 },
    Optional := some { MaxCombo := 500 } }

/-- The document of a player whose only row is `chuniRowFull`. -/
def chuniDocFull : BatchManualImportChuni :=
  { Meta := { Game := "chunithm", Playtype := "Single", Service := "Cozynet" }
    Scores := .elems [chuniScoreFull]
    Classes := some { Dan := some "DAN_I", Emblem := some "DAN_II" } }

/-- An Ongeki row with every column present: full bell and full combo, not all
break. -/
def ongekiRowFull : OngekiPlaylog :=
  { UserPlayDate := some "2024-01-01 12:00:00", MusicID := some 7, ClearStatus := some 1,
    Difficulty := some 10, TechScore := some 1000000, MaxCombo := some 300,
    JudgeMiss := some 0, JudgeHit := some 2, JudgeBreak := some 10,
    JudgeCriticalBreak := some 288, BellCount := some 50, DamageCount := some 0,
    IsFullCombo := some 1, IsFullBell := some 1, IsAllBreak := some 0,
    PlatinumScore := some 500, TotalBellCount := some 50 }

/-- The record that `ongekiRowFull` is exported as. -/
def ongekiScoreFull : BatchManualScoreGeki :=
  { Identifier := "7", MatchType := "inGameID", Score := 1000000, Lamp := "FULL COMBO",
    Difficulty := "LUNATIC", TimeAchieved := some 1704142800000,
    Judgements := some { CBreak := 288, Break := 10, Hit := 2, Miss := 0 },
    Optional :=
      some { MaxCombo := 300, Damage := 0, BellCount := 50, TotalBellCount := 50,
             PlatScore := 500 } }

/-- The document of a player whose only row is `ongekiRowFull`. -/
def ongekiDocFull : BatchManualImportGeki :=
  { Meta := { Game := "ongeki", Playtype := "Single", Service := "batch-artemis-export" }
    Scores := .elems [ongekiScoreFull] }

/-- The row `chuniRowFull` at level 5: a WORLD'S END chart of a version "2."
game. -/
def chuniRowWorldsEnd : ChuniPlaylog := { chuniRowFull with Level := some 5 }

/-- The row `chuniRowFull` without judgeHeaven, as an older game version
logs it. -/
def chuniRowNoHeaven : ChuniPlaylog := { chuniRowFull with JudgeHeaven := none }

/-- The record that `chuniRowNoHeaven` is exported as. -/
def chuniScoreNoHeaven : BatchManualScoreChuni :=
  { chuniScoreFull with Judgements := some { JCrit := 100, Justice := 0, Attack := 0, Miss := 0 } }

/-- The row `chuniRowFull` at level 6, a code outside the difficulty table
that the WORLD'S END filter lets through. -/
def chuniRowLevelSix : ChuniPlaylog := { chuniRowFull with Level := some 6 }

/-- The row `ongekiRowFull` without its four lamp-determining flags. -/
def ongekiRowNoFlags : OngekiPlaylog :=
  { ongekiRowFull with
    IsAllBreak := none, IsFullCombo := none, IsFullBell := none, ClearStatus := none }

/-- The record that `ongekiRowNoFlags` is exported as. -/
def ongekiScoreNoFlags : BatchManualScoreGeki := { ongekiScoreFull with Lamp := "LOSS" }

/-- The row `ongekiRowFull` without judgeMiss and without platinumScore. -/
def ongekiRowNoMiss : OngekiPlaylog :=
  { ongekiRowFull with JudgeMiss := none, PlatinumScore := none }

/-- The record that `ongekiRowNoMiss` is exported as. -/
def ongekiScoreNoMiss : BatchManualScoreGeki :=
  { ongekiScoreFull with
    Optional :=
      some { MaxCombo := 300, Damage := 0, BellCount := 50, TotalBellCount := 50,
             PlatScore := 0 } }

/-- The row `chuniRowFull` without musicId. -/
def chuniRowNoMusicId : ChuniPlaylog := { chuniRowFull with MusicID := none }

/-- The document of a player whose only row is `chuniRowNoHeaven`. -/
def chuniDocNoHeaven : BatchManualImportChuni :=
  { chuniDocFull with Scores := .elems [chuniScoreNoHeaven] }

/-- The document of a player whose only row is `ongekiRowNoFlags`. -/
def ongekiDocNoFlags : BatchManualImportGeki :=
  { ongekiDocFull with Scores := .elems [ongekiScoreNoFlags] }

/-- The document of a player whose only row is `ongekiRowNoMiss`. -/
def ongekiDocNoMiss : BatchManualImportGeki :=
  { ongekiDocFull with Scores := .elems [ongekiScoreNoMiss] }

/-- The row `ongekiRowFull` with a userPlayDate that is not in the layout. -/
def ongekiRowBadDate : OngekiPlaylog := { ongekiRowFull with UserPlayDate := some "yesterday" }

/-- The row `chuniRowFull` with a userPlayDate that is not in the layout. -/
def chuniRowBadDate : ChuniPlaylog := { chuniRowFull with UserPlayDate := some "yesterday" }

/-- The record that `chuniRowBadDate` is exported as. -/
def chuniScoreBadDate : BatchManualScoreChuni := { chuniScoreFull with TimeAchieved := none }

/-- The document of a player whose only row is `chuniRowBadDate`. -/
def chuniDocBadDate : BatchManualImportChuni :=
  { chuniDocFull with Scores := .elems [chuniScoreBadDate] }

/-- The row `ongekiRowFull` without difficulty, musicId and techScore. -/
def ongekiRowNoKeys : OngekiPlaylog :=
  { ongekiRowFull with Difficulty := none, MusicID := none, TechScore := none }

/-- The record that `ongekiRowNoKeys` is exported as. -/
def ongekiScoreNoKeys : BatchManualScoreGeki :=
  { ongekiScoreFull with Identifier := "0", Score := 0, Difficulty := "BASIC" }

/-- The document of a player whose only row is `ongekiRowNoKeys`. -/
def ongekiDocNoKeys : BatchManualImportGeki :=
  { ongekiDocFull with Scores := .elems [ongekiScoreNoKeys] }

/-- The row `chuniRowFull` with the empty string as romVersion (present, not
NULL). -/
def chuniRowEmptyVersion : ChuniPlaylog := { chuniRowFull with RomVersion := some "" }

/-- The row `chuniRowFull` with the one-character romVersion "2". -/
def chuniRowShortVersion : ChuniPlaylog := { chuniRowFull with RomVersion := some "2" }

/-! ## Lemmas on the row loops -/

/-- The elements after `append` are the old elements and the new one. -/
theorem Slice.toList_append {α : Type} (s : Slice α) (x : α) :
    (s.append x).toList = s.toList ++ [x] := by
  cases s <;> rfl

/-- A row that is passed over is not among the kept rows. -/
theorem chuniKept_cons_skip (tp : String → Except String Time) (p : ChuniPlaylog)
    (rest : List (Except String ChuniPlaylog)) (h : chuniRow tp p = .skip) :
    chuniKept tp (.ok p :: rest) = chuniKept tp rest := by
  simp [chuniKept, List.filterMap_cons, h]

/-- A row that reaches the `append` is the first of the kept rows. -/
theorem chuniKept_cons_emit (tp : String → Except String Time) (p : ChuniPlaylog)
    (rest : List (Except String ChuniPlaylog)) (s : BatchManualScoreChuni)
    (h : chuniRow tp p = .emit s) :
    chuniKept tp (.ok p :: rest) = p :: chuniKept tp rest := by
  simp [chuniKept, List.filterMap_cons, h]

/-- A row loop of `fetchChuniTachiExport` that runs to its end has appended,
in order, one record for each row it did not pass over. -/
theorem chuniLoop_ok (tp : String → Except String Time) :
    ∀ (rows : List (Except String ChuniPlaylog)) (acc out : Slice BatchManualScoreChuni),
      chuniLoop tp rows acc = .ok out →
        ∃ recs, out.toList = acc.toList ++ recs ∧
          List.Forall₂ (fun p s => chuniRow tp p = .emit s) (chuniKept tp rows) recs := by
  intro rows
  induction rows with
  | nil =>
    intro acc out h
    simp only [chuniLoop, Outcome.ok.injEq] at h
    exact ⟨[], by simp [h], by simp [chuniKept]⟩
  | cons r rest ih =>
    intro acc out h
    cases r with
    | error e => simp [chuniLoop] at h
    | ok p =>
      cases hrow : chuniRow tp p with
      | skip =>
        simp only [chuniLoop, hrow] at h
        rw [chuniKept_cons_skip tp p rest hrow]
        exact ih acc out h
      | emit s =>
        simp only [chuniLoop, hrow] at h
        obtain ⟨recs, hout, hall⟩ := ih (acc.append s) out h
        refine ⟨s :: recs, ?_, ?_⟩
        · rw [hout, Slice.toList_append]; simp
        · rw [chuniKept_cons_emit tp p rest s hrow]
          exact List.Forall₂.cons hrow hall
      | error e => simp [chuniLoop, hrow] at h
      | fault m => simp [chuniLoop, hrow] at h

/-- The records of a document returned by `fetchChuniTachiExport` are, in
order, the records of the rows that were not passed over. -/
theorem fetchChuni_ok (tp : String → Except String Time) (profile : Except String (Int × Int))
    (rows : List (Except String ChuniPlaylog)) (doc : BatchManualImportChuni)
    (h : fetchChuniTachiExport tp profile (.ok rows) = .ok doc) :
    List.Forall₂ (fun p s => chuniRow tp p = .emit s) (chuniKept tp rows) doc.Scores.toList := by
  unfold fetchChuniTachiExport at h
  cases profile with
  | error e => simp at h
  | ok pr =>
    obtain ⟨b, m⟩ := pr
    cases hloop : chuniLoop tp rows .nil with
    | error e => simp [hloop] at h
    | fault e => simp [hloop] at h
    | ok scores =>
      simp only [hloop, Outcome.ok.injEq] at h
      obtain ⟨recs, hout, hall⟩ := chuniLoop_ok tp rows .nil scores hloop
      subst h
      have hnil : (Slice.nil : Slice BatchManualScoreChuni).toList = [] := rfl
      rw [hnil, List.nil_append] at hout
      show List.Forall₂ _ _ scores.toList
      rw [hout]
      exact hall

/-- A row that the loop body passes over leaves the loop's outcome as it is
without the row. -/
theorem chuniLoop_skip_row (tp : String → Except String Time) (p : ChuniPlaylog)
    (post : List (Except String ChuniPlaylog)) (hskip : chuniRow tp p = .skip) :
    ∀ (pre : List (Except String ChuniPlaylog)) (acc : Slice BatchManualScoreChuni),
      chuniLoop tp (pre ++ .ok p :: post) acc = chuniLoop tp (pre ++ post) acc := by
  intro pre
  induction pre with
  | nil => intro acc; simp [chuniLoop, hskip]
  | cons r rest ih =>
    intro acc
    cases r with
    | error e => simp [chuniLoop]
    | ok q =>
      cases hq : chuniRow tp q <;> simp [chuniLoop, hq, ih]

/-- A row that the loop body passes over leaves the result of
`fetchChuniTachiExport` as it is without the row. -/
theorem fetchChuni_skip_row (tp : String → Except String Time)
    (profile : Except String (Int × Int)) (p : ChuniPlaylog)
    (pre post : List (Except String ChuniPlaylog)) (hskip : chuniRow tp p = .skip) :
    fetchChuniTachiExport tp profile (.ok (pre ++ .ok p :: post)) =
      fetchChuniTachiExport tp profile (.ok (pre ++ post)) := by
  cases profile with
  | error e => rfl
  | ok pr =>
    simp only [fetchChuniTachiExport, chuniLoop_skip_row tp p post hskip pre .nil]

/-! ## Lemmas on one Chunithm row -/

/-- What a Chunithm row that reaches the `append` looks like, and the record
it is appended as. -/
theorem chuniRow_emit_inv (tp : String → Except String Time) (p : ChuniPlaylog)
    (s : BatchManualScoreChuni) (h : chuniRow tp p = .emit s) :
    chuniMissingRequired p = false ∧ chuniWorldsEnd p = some false ∧
      indexAt chuniDifficulties p.Level.Int64 = some s.Difficulty ∧
      s =
        { Identifier := toString p.MusicID.Int64
          MatchType := "inGameID"
          Score := p.Score.Int64
          Lamp := chuniLamp p
          Difficulty := s.Difficulty
          TimeAchieved := chuniTimeAchieved tp p
          Judgements := chuniJudgements p
          Optional := chuniOptional p } := by
  unfold chuniRow at h
  split at h
  · exact absurd h (by simp)
  · rename_i hreq
    split at h
    · exact absurd h (by simp)
    · exact absurd h (by simp)
    · rename_i hwe
      split at h
      · exact absurd h (by simp)
      · rename_i d hd
        simp only [Step.emit.injEq] at h
        subst h
        exact ⟨by simpa using hreq, hwe, hd, rfl⟩

/-- The required-field test passes over exactly the rows in which a required
column is absent. -/
theorem chuniMissingRequired_eq_false_iff (p : ChuniPlaylog) :
    chuniMissingRequired p = false ↔ chuniRequiredPresent p := by
  unfold chuniMissingRequired chuniRequiredPresent NullString.Valid NullInt64.Valid NullBool.Valid
  cases p.RomVersion <;> cases p.MusicID <;> cases p.Level <;> cases p.Score <;>
    cases p.JudgeJustice <;> cases p.IsAllJustice <;> cases p.IsFullCombo <;>
    cases p.IsClear <;> simp

/-- The lamp chain computes the lamp of the specification on the values of
the flags. -/
theorem chuniLamp_eq_spec (p : ChuniPlaylog) (aj fc cl : Bool) (jj : Int)
    (haj : p.IsAllJustice = some aj) (hfc : p.IsFullCombo = some fc) (hcl : p.IsClear = some cl)
    (hjj : p.JudgeJustice = some jj) : chuniLamp p = chuniLampSpec aj fc cl jj := by
  simp [chuniLamp, chuniLampSpec, haj, hfc, hcl, hjj, NullBool.Bool, NullInt64.Int64,
    AllJusticeCritical, AllJustice, FullCombo, Clear, Failed]

/-! ## Lemmas on the WORLD'S END filter -/

/-- The bytes of a string are the UTF-8 encodings of its characters. -/
theorem goBytes_eq (s : String) : goBytes s = s.data.flatMap String.utf8EncodeChar := rfl

/-- A string has at least as many bytes as characters. -/
theorem length_le_goBytes_length (s : String) : s.length ≤ (goBytes s).length := by
  rw [goBytes_eq, String.length]
  induction s.data with
  | nil => simp
  | cons c cs ih =>
    have hc : 0 < (String.utf8EncodeChar c).length := by
      rw [String.length_utf8EncodeChar]; exact Char.utf8Size_pos c
    simp only [List.flatMap_cons, List.length_append, List.length_cons]
    omega

/-- With two bytes to slice, the WORLD'S END test is the Boolean of line 97. -/
theorem chuniWorldsEnd_of_two_bytes (p : ChuniPlaylog)
    (h : 2 ≤ (goBytes p.RomVersion.String).length) :
    chuniWorldsEnd p =
      some (((goBytes p.RomVersion.String).take 2 == goBytes "1." && p.Level.Int64 == 4) ||
        ((goBytes p.RomVersion.String).take 2 == goBytes "2." && p.Level.Int64 == 5)) := by
  simp only [chuniWorldsEnd, sliceTo, h, if_true]
  split <;> simp_all

/-- Comparing the first two bytes with a two-byte literal is the test that the
string starts with the literal. -/
theorem take_two_eq_iff (l : List UInt8) (lit : String) (hl : (goBytes lit).length = 2) :
    l.take 2 = goBytes lit ↔ goBytes lit <+: l := by
  rw [List.prefix_iff_eq_take, hl]
  exact eq_comm

/-- A row with its required columns is passed over exactly by the WORLD'S END
test. -/
theorem chuniRow_skip_iff (tp : String → Except String Time) (p : ChuniPlaylog)
    (hreq : chuniMissingRequired p = false) :
    chuniRow tp p = .skip ↔ chuniWorldsEnd p = some true := by
  unfold chuniRow
  simp only [hreq, Bool.false_eq_true, if_false]
  cases hwe : chuniWorldsEnd p with
  | none => simp
  | some b =>
    cases b with
    | true => simp
    | false =>
      cases hd : indexAt chuniDifficulties p.Level.Int64 <;> simp

/-! ## Lemmas on the Ongeki loop -/

/-- What the loop body of `fetchOngekiExport` appends when it reaches the
`append`. -/
theorem ongekiRow_emit_inv (tp : String → Except String Time) (p : OngekiPlaylog)
    (s : BatchManualScoreGeki) (h : ongekiRow tp p = .emit s) :
    s.Identifier = toString p.MusicID.Int32 ∧ s.MatchType = "inGameID" ∧
      s.Score = p.TechScore.Int32 ∧ s.Lamp = ongekiLamp p ∧
      s.Difficulty = ongekiDifficulty p ∧
      s.Judgements =
        some
          { CBreak := p.JudgeCriticalBreak.Int32
            Break := p.JudgeBreak.Int32
            Hit := p.JudgeHit.Int32
            Miss := p.JudgeMiss.Int32 } ∧
      s.Optional =
        some
          { MaxCombo := p.MaxCombo.Int32
            Damage := p.DamageCount.Int32
            BellCount := p.BellCount.Int32
            TotalBellCount := p.TotalBellCount.Int32
            PlatScore := p.PlatinumScore.Int32 } := by
  unfold ongekiRow at h
  simp only at h
  split at h
  · exact absurd h (by simp)
  · simp only [Step.emit.injEq] at h
    subst h
    exact ⟨rfl, rfl, rfl, rfl, rfl, rfl, rfl⟩

/-- The loop body of `fetchOngekiExport` has no `continue`. -/
theorem ongekiRow_ne_skip (tp : String → Except String Time) (p : OngekiPlaylog) :
    ongekiRow tp p ≠ .skip := by
  unfold ongekiRow
  simp only
  split <;> simp

/-- The loop body of `fetchOngekiExport` does not panic. -/
theorem ongekiRow_ne_fault (tp : String → Except String Time) (p : OngekiPlaylog)
    (m : String) : ongekiRow tp p ≠ .fault m := by
  unfold ongekiRow
  simp only
  split <;> simp

/-- A row loop of `fetchOngekiExport` that runs to its end has appended, in
order, one record for every row. -/
theorem ongekiLoop_ok (tp : String → Except String Time) :
    ∀ (rows : List (Except String OngekiPlaylog)) (acc out : Slice BatchManualScoreGeki),
      ongekiLoop tp rows acc = .ok out →
        ∃ recs, out.toList = acc.toList ++ recs ∧
          List.Forall₂ (fun r s => ∃ p, r = .ok p ∧ ongekiRow tp p = .emit s) rows recs := by
  intro rows
  induction rows with
  | nil =>
    intro acc out h
    simp only [ongekiLoop, Outcome.ok.injEq] at h
    exact ⟨[], by simp [h], List.Forall₂.nil⟩
  | cons r rest ih =>
    intro acc out h
    cases r with
    | error e => simp [ongekiLoop] at h
    | ok p =>
      cases hrow : ongekiRow tp p with
      | skip => exact absurd hrow (ongekiRow_ne_skip tp p)
      | emit s =>
        simp only [ongekiLoop, hrow] at h
        obtain ⟨recs, hout, hall⟩ := ih (acc.append s) out h
        refine ⟨s :: recs, ?_, ?_⟩
        · rw [hout, Slice.toList_append]; simp
        · exact List.Forall₂.cons ⟨p, rfl, hrow⟩ hall
      | error e => simp [ongekiLoop, hrow] at h
      | fault m => simp [ongekiLoop, hrow] at h

/-- The row loop of `fetchOngekiExport` never turns a non-nil slice into the
nil slice. -/
theorem ongekiLoop_not_nil (tp : String → Except String Time) :
    ∀ (rows : List (Except String OngekiPlaylog)) (xs : List BatchManualScoreGeki)
      (out : Slice BatchManualScoreGeki),
      ongekiLoop tp rows (.elems xs) = .ok out → out ≠ .nil := by
  intro rows
  induction rows with
  | nil =>
    intro xs out h
    simp only [ongekiLoop, Outcome.ok.injEq] at h
    subst h
    simp
  | cons r rest ih =>
    intro xs out h
    cases r with
    | error e => simp [ongekiLoop] at h
    | ok p =>
      cases hrow : ongekiRow tp p with
      | skip => exact absurd hrow (ongekiRow_ne_skip tp p)
      | emit s =>
        simp only [ongekiLoop, hrow, Slice.append] at h
        exact ih _ out h
      | error e => simp [ongekiLoop, hrow] at h
      | fault m => simp [ongekiLoop, hrow] at h

/-- The records of a document returned by `fetchOngekiExport` are, in order,
the records of the rows, one for each. -/
theorem fetchOngeki_ok (tp : String → Except String Time)
    (rows : List (Except String OngekiPlaylog)) (doc : BatchManualImportGeki)
    (h : fetchOngekiExport tp (.ok rows) = .ok doc) :
    List.Forall₂ (fun r s => ∃ p, r = .ok p ∧ ongekiRow tp p = .emit s) rows
      doc.Scores.toList := by
  unfold fetchOngekiExport at h
  cases hloop : ongekiLoop tp rows (.elems []) with
  | error e => simp [hloop] at h
  | fault e => simp [hloop] at h
  | ok scores =>
    simp only [hloop, Outcome.ok.injEq] at h
    obtain ⟨recs, hout, hall⟩ := ongekiLoop_ok tp rows (.elems []) scores hloop
    subst h
    have hnil : (Slice.elems [] : Slice BatchManualScoreGeki).toList = [] := rfl
    rw [hnil, List.nil_append] at hout
    show List.Forall₂ _ _ scores.toList
    rw [hout]
    exact hall

/-- The `scores` of a document returned by `fetchOngekiExport` is a non-nil
slice, which `encoding/json` writes as an array. -/
theorem fetchOngeki_scores_array (tp : String → Except String Time)
    (query : Except String (List (Except String OngekiPlaylog))) (doc : BatchManualImportGeki)
    (h : fetchOngekiExport tp query = .ok doc) :
    marshalSlice doc.Scores = .array doc.Scores.toList.length := by
  unfold fetchOngekiExport at h
  cases query with
  | error e => simp at h
  | ok rows =>
    cases hloop : ongekiLoop tp rows (.elems []) with
    | error e => simp [hloop] at h
    | fault e => simp [hloop] at h
    | ok scores =>
      simp only [hloop, Outcome.ok.injEq] at h
      subst h
      have hne := ongekiLoop_not_nil tp rows [] scores hloop
      cases scores with
      | nil => exact absurd rfl hne
      | elems xs => rfl

/-- The lamp switch of `fetchOngekiExport` in terms of the flags that are set:
ALL BREAK, then FULL COMBO, then FULL BELL, then CLEAR, then LOSS. -/
theorem ongekiLamp_eq (p : OngekiPlaylog) : ongekiLamp p = ongekiLampComboAboveBell p := by
  unfold ongekiLamp ongekiLampComboAboveBell flagSet clearSet NullInt32.Valid NullInt32.Int32
    AllBreak FullComboGeki FullBell ClearGeki Loss
  cases p.IsAllBreak <;> cases p.IsFullCombo <;> cases p.IsFullBell <;>
    cases p.ClearStatus <;> simp

/-- The difficulty conversion of `fetchOngekiExport` on a present code. -/
theorem ongekiDifficulty_eq (p : OngekiPlaylog) (c : Int) (h : p.Difficulty = some c) :
    ongekiDifficulty p = ongekiLabelSpec c := by
  unfold ongekiDifficulty ongekiLabelSpec DIFFICULTY_MAP
  simp only [h, NullInt32.Int32, Option.getD_some, List.lookup]
  by_cases h0 : c = 0
  · subst h0; rfl
  by_cases h1 : c = 1
  · subst h1; rfl
  by_cases h2 : c = 2
  · subst h2; rfl
  by_cases h3 : c = 3
  · subst h3; rfl
  by_cases h10 : c = 10
  · subst h10; rfl
  have e0 : (c == 0) = false := by simpa using h0
  have e1 : (c == 1) = false := by simpa using h1
  have e2 : (c == 2) = false := by simpa using h2
  have e3 : (c == 3) = false := by simpa using h3
  have e10 : (c == 10) = false := by simpa using h10
  simp [e0, e1, e2, e3, e10, h0, h1, h2, h3, h10]

/-- Every element on the left of a pairing has its partner on the right. -/
theorem forall₂_partner {α β : Type} {R : α → β → Prop} {l₁ : List α} {l₂ : List β}
    (h : List.Forall₂ R l₁ l₂) : ∀ a, a ∈ l₁ → ∃ b, b ∈ l₂ ∧ R a b := by
  induction h with
  | nil => intro a ha; simp at ha
  | cons hab _ ih =>
    intro a ha
    rcases List.mem_cons.1 ha with rfl | ha
    · exact ⟨_, List.mem_cons_self _ _, hab⟩
    · obtain ⟨b, hb, hr⟩ := ih a ha
      exact ⟨b, List.mem_cons_of_mem _ hb, hr⟩

/-! ## Lemmas on dates and times -/

/-- An `int64` computation whose exact result fits in 64 bits does not wrap. -/
theorem wrapInt64_eq_self (x : Int) (hlo : -9223372036854775808 ≤ x)
    (hhi : x < 9223372036854775808) : wrapInt64 x = x := by
  unfold wrapInt64
  norm_num
  omega

/-- The loop body of `fetchOngekiExport` either reaches the `append`, or
returns the error of a present userPlayDate that does not parse. -/
theorem ongekiRow_cases (tp : String → Except String Time) (p : OngekiPlaylog) :
    ((∃ s, ongekiRow tp p = .emit s) ∧
        ¬ ∃ value err, p.UserPlayDate = some value ∧ tp value = .error err) ∨
      ((∃ value err, p.UserPlayDate = some value ∧ tp value = .error err) ∧
        ∃ err, ongekiRow tp p = .error err) := by
  unfold ongekiRow
  cases hd : p.UserPlayDate with
  | none =>
    left
    simp [NullString.Valid]
  | some value =>
    cases ht : tp value with
    | error err =>
      right
      simp [NullString.Valid, NullString.String, ht]
    | ok t =>
      left
      simp [NullString.Valid, NullString.String, ht]

/-- The row loop of `fetchOngekiExport` over scanned rows returns an error
exactly when some row has a present userPlayDate that does not parse, and
otherwise runs to its end. -/
theorem ongekiLoop_error_iff (tp : String → Except String Time) :
    ∀ (ps : List OngekiPlaylog) (acc : Slice BatchManualScoreGeki),
      ((∃ err, ongekiLoop tp (ps.map .ok) acc = .error err) ↔
          ∃ p, p ∈ ps ∧ ∃ value err, p.UserPlayDate = some value ∧ tp value = .error err) ∧
        ((∃ out, ongekiLoop tp (ps.map .ok) acc = .ok out) ↔
          ¬ ∃ p, p ∈ ps ∧ ∃ value err, p.UserPlayDate = some value ∧ tp value = .error err) := by
  intro ps
  induction ps with
  | nil => intro acc; simp [ongekiLoop]
  | cons p rest ih =>
    intro acc
    rcases ongekiRow_cases tp p with ⟨⟨s, hs⟩, hno⟩ | ⟨hyes, e, he⟩
    · have hstep : ongekiLoop tp ((p :: rest).map .ok) acc =
          ongekiLoop tp (rest.map .ok) (acc.append s) := by
        simp [ongekiLoop, hs]
      rw [hstep]
      obtain ⟨ih1, ih2⟩ := ih (acc.append s)
      constructor
      · rw [ih1]
        constructor
        · rintro ⟨q, hq, hbad⟩
          exact ⟨q, List.mem_cons_of_mem _ hq, hbad⟩
        · rintro ⟨q, hq, hbad⟩
          rcases List.mem_cons.1 hq with rfl | hq
          · exact absurd hbad hno
          · exact ⟨q, hq, hbad⟩
      · rw [ih2]
        constructor
        · rintro hn ⟨q, hq, hbad⟩
          rcases List.mem_cons.1 hq with rfl | hq
          · exact absurd hbad hno
          · exact hn ⟨q, hq, hbad⟩
        · rintro hn ⟨q, hq, hbad⟩
          exact hn ⟨q, List.mem_cons_of_mem _ hq, hbad⟩
    · have hstep : ongekiLoop tp ((p :: rest).map .ok) acc = .error e := by
        simp [ongekiLoop, he]
      rw [hstep]
      constructor
      · constructor
        · intro _
          exact ⟨p, List.mem_cons_self _ _, hyes⟩
        · intro _
          exact ⟨e, rfl⟩
      · constructor
        · rintro ⟨out, hout⟩
          exact absurd hout (by simp)
        · intro hn
          exact absurd ⟨p, List.mem_cons_self _ _, hyes⟩ hn

/-- Mapping a slice commutes with `append`. -/
theorem Slice.map_append {α β : Type} (f : α → β) (s : Slice α) (x : α) :
    (s.append x).map f = (s.map f).append (f x) := by
  cases s <;> simp [Slice.append, Slice.map]

/-- The elements of a mapped slice. -/
theorem Slice.toList_map {α β : Type} (f : α → β) (s : Slice α) :
    (s.map f).toList = s.toList.map f := by
  cases s <;> rfl

/-- The loop body of `fetchChuniTachiExport` reads userPlayDate for
`timeAchieved` only: without the date it does the same, with `timeAchieved`
left out of the record. -/
theorem chuniRow_withoutDate (tp : String → Except String Time) (p : ChuniPlaylog) :
    chuniRow tp (chuniRowWithoutDate p) = (chuniRow tp p).map chuniScoreWithoutTime := by
  unfold chuniRow
  have h1 : chuniMissingRequired (chuniRowWithoutDate p) = chuniMissingRequired p := rfl
  have h2 : chuniWorldsEnd (chuniRowWithoutDate p) = chuniWorldsEnd p := rfl
  have h3 : (chuniRowWithoutDate p).Level = p.Level := rfl
  have h4 : chuniTimeAchieved tp (chuniRowWithoutDate p) = none := rfl
  rw [h1, h2, h3, h4]
  split
  · rfl
  · split
    · rfl
    · rfl
    · split <;> rfl

/-- The row loop of `fetchChuniTachiExport` without the dates. -/
theorem chuniLoop_withoutDate (tp : String → Except String Time) :
    ∀ (rows : List (Except String ChuniPlaylog)) (acc : Slice BatchManualScoreChuni),
      chuniLoop tp (rows.map (Except.map chuniRowWithoutDate)) (acc.map chuniScoreWithoutTime) =
        (chuniLoop tp rows acc).map (Slice.map chuniScoreWithoutTime) := by
  intro rows
  induction rows with
  | nil => intro acc; rfl
  | cons r rest ih =>
    intro acc
    cases r with
    | error e => rfl
    | ok p =>
      have hrow := chuniRow_withoutDate tp p
      simp only [List.map_cons, Except.map, chuniLoop]
      rw [hrow]
      cases hp : chuniRow tp p with
      | skip => simpa [Step.map] using ih acc
      | emit s =>
        simp only [Step.map]
        rw [← Slice.map_append]
        exact ih (acc.append s)
      | error e => rfl
      | fault m => rfl

/-- The export `fetchChuniTachiExport` without the dates. -/
theorem fetchChuni_withoutDate (tp : String → Except String Time)
    (profile : Except String (Int × Int)) (rows : List (Except String ChuniPlaylog)) :
    fetchChuniTachiExport tp profile (.ok (rows.map (Except.map chuniRowWithoutDate))) =
      (fetchChuniTachiExport tp profile (.ok rows)).map chuniDocWithoutTimes := by
  cases profile with
  | error e => rfl
  | ok pr =>
    have h := chuniLoop_withoutDate tp rows .nil
    simp only [Slice.map] at h
    simp only [fetchChuniTachiExport, h]
    cases chuniLoop tp rows .nil <;> rfl

/-- The class table of `getChuniTachiClass`, entry by entry. -/
theorem getChuniTachiClass_eq_spec (i : Int) : getChuniTachiClass i = chuniClassSpec i := by
  by_cases hneg : i < 0
  · have h1 : getChuniTachiClass i = none := by
      unfold getChuniTachiClass
      simp only
      rw [if_neg (by omega)]
    rw [h1]
    unfold chuniClassSpec
    repeat rw [if_neg (by omega)]
  · by_cases hbig : 6 < i
    · have h1 : getChuniTachiClass i = none := by
        unfold getChuniTachiClass
        simp only [List.length_cons, List.length_nil]
        rw [if_neg (by omega)]
      rw [h1]
      unfold chuniClassSpec
      repeat rw [if_neg (by omega)]
    · have h0 : 0 ≤ i := by omega
      have h6 : i ≤ 6 := by omega
      interval_cases i <;> decide

/-! ## Lemmas on appended rows -/

/-- The row loop of `fetchChuniTachiExport` over two lists of rows, one after
the other. -/
theorem chuniLoop_append (tp : String → Except String Time)
    (more : List (Except String ChuniPlaylog)) :
    ∀ (rows : List (Except String ChuniPlaylog)) (acc : Slice BatchManualScoreChuni),
      chuniLoop tp (rows ++ more) acc =
        match chuniLoop tp rows acc with
        | .ok out => chuniLoop tp more out
        | .error err => .error err
        | .fault msg => .fault msg := by
  intro rows
  induction rows with
  | nil => intro acc; simp [chuniLoop]
  | cons r rest ih =>
    intro acc
    cases r with
    | error e => simp [chuniLoop]
    | ok p =>
      cases hp : chuniRow tp p <;> simp [chuniLoop, hp, ih]

/-- The row loop of `fetchOngekiExport` over two lists of rows, one after the
other. -/
theorem ongekiLoop_append (tp : String → Except String Time)
    (more : List (Except String OngekiPlaylog)) :
    ∀ (rows : List (Except String OngekiPlaylog)) (acc : Slice BatchManualScoreGeki),
      ongekiLoop tp (rows ++ more) acc =
        match ongekiLoop tp rows acc with
        | .ok out => ongekiLoop tp more out
        | .error err => .error err
        | .fault msg => .fault msg := by
  intro rows
  induction rows with
  | nil => intro acc; simp [ongekiLoop]
  | cons r rest ih =>
    intro acc
    cases r with
    | error e => simp [ongekiLoop]
    | ok p =>
      cases hp : ongekiRow tp p <;> simp [ongekiLoop, hp, ih]

/-- A returned Chunithm document holds the slice that the row loop built. -/
theorem fetchChuni_loop (tp : String → Except String Time)
    (profile : Except String (Int × Int)) (rows : List (Except String ChuniPlaylog))
    (doc : BatchManualImportChuni)
    (h : fetchChuniTachiExport tp profile (.ok rows) = .ok doc) :
    chuniLoop tp rows .nil = .ok doc.Scores := by
  unfold fetchChuniTachiExport at h
  cases profile with
  | error e => simp at h
  | ok pr =>
    cases hloop : chuniLoop tp rows .nil with
    | error e => simp [hloop] at h
    | fault e => simp [hloop] at h
    | ok scores =>
      simp only [hloop, Outcome.ok.injEq] at h
      subst h
      rfl

/-- A returned Ongeki document holds the slice that the row loop built. -/
theorem fetchOngeki_loop (tp : String → Except String Time)
    (rows : List (Except String OngekiPlaylog)) (doc : BatchManualImportGeki)
    (h : fetchOngekiExport tp (.ok rows) = .ok doc) :
    ongekiLoop tp rows (.elems []) = .ok doc.Scores := by
  unfold fetchOngekiExport at h
  cases hloop : ongekiLoop tp rows (.elems []) with
  | error e => simp [hloop] at h
  | fault e => simp [hloop] at h
  | ok scores =>
    simp only [hloop, Outcome.ok.injEq] at h
    subst h
    rfl

/-- The table of line 119 holds the labels of the levels 0 to 4 and nothing
else. -/
theorem indexAt_chuniDifficulties (lv : Int) (d : String)
    (h : indexAt chuniDifficulties lv = some d) : 0 ≤ lv ∧ lv ≤ 4 ∧ d = chuniLabelSpec lv := by
  unfold indexAt at h
  split_ifs at h with h0
  by_cases h4 : lv ≤ 4
  · refine ⟨h0, h4, ?_⟩
    interval_cases lv <;> simp_all [chuniDifficulties, chuniLabelSpec]
  · exfalso
    have hlen : chuniDifficulties.length ≤ lv.toNat := by
      simp only [chuniDifficulties, List.length_cons, List.length_nil]
      omega
    rw [List.getElem?_eq_none hlen] at h
    exact absurd h (by simp)

/-! ## Lemmas on short version strings -/

/-- A row with its required columns whose romVersion has fewer than two bytes
makes the loop body of `fetchChuniTachiExport` panic in the slice expression
of line 97, whatever the other columns hold. -/
theorem chuniRow_short_version_faults (tp : String → Except String Time) (p : ChuniPlaylog)
    (hreq : chuniMissingRequired p = false)
    (hlen : (goBytes p.RomVersion.String).length < 2) :
    chuniRow tp p = .fault "slice bounds out of range" := by
  have hslice : sliceTo p.RomVersion.String 2 = none := by
    unfold sliceTo
    rw [if_neg (by omega)]
  have hwe : chuniWorldsEnd p = none := by
    unfold chuniWorldsEnd
    rw [hslice]
  unfold chuniRow
  simp only [hreq, hwe, Bool.false_eq_true, if_false]

/-- A row with its required columns whose romVersion has at least two bytes
does not panic in the slice expression of line 97. -/
theorem chuniWorldsEnd_defined_of_two_bytes (p : ChuniPlaylog)
    (hlen : 2 ≤ (goBytes p.RomVersion.String).length) : chuniWorldsEnd p ≠ none := by
  rw [chuniWorldsEnd_of_two_bytes p hlen]
  simp

/-! ## Lemmas on the record of an exported Chunithm row -/

/-- The record that the loop body appends for a row is among the scores of
every document that `fetchChuniTachiExport` returns for rows containing the
row. -/
theorem fetchChuni_emit_mem (tp : String → Except String Time)
    (profile : Except String (Int × Int)) (pre post : List (Except String ChuniPlaylog))
    (p : ChuniPlaylog) (s : BatchManualScoreChuni) (doc : BatchManualImportChuni)
    (hrow : chuniRow tp p = .emit s)
    (h : fetchChuniTachiExport tp profile (.ok (pre ++ .ok p :: post)) = .ok doc) :
    s ∈ doc.Scores.toList := by
  have hkept : p ∈ chuniKept tp (pre ++ .ok p :: post) := by
    unfold chuniKept
    rw [List.mem_filterMap]
    exact ⟨.ok p, by simp, by simp [hrow]⟩
  obtain ⟨s', hmem, hs'⟩ := forall₂_partner (fetchChuni_ok tp profile _ doc h) p hkept
  rw [hrow] at hs'
  cases hs'
  exact hmem

/-- For a player whose only row reaches the `append`, `fetchChuniTachiExport`
returns a document whose scores are the one record of that row. -/
theorem fetchChuni_single_emit (tp : String → Except String Time) (base medal : Int)
    (p : ChuniPlaylog) (s : BatchManualScoreChuni) (hrow : chuniRow tp p = .emit s) :
    ∃ doc, fetchChuniTachiExport tp (.ok (base, medal)) (.ok [.ok p]) = .ok doc ∧
      doc.Scores = .elems [s] := by
  have hloop : chuniLoop tp [.ok p] .nil = .ok (.elems [s]) := by
    simp only [chuniLoop, hrow, Slice.append]
  simp only [fetchChuniTachiExport, hloop]
  exact ⟨_, rfl, rfl⟩

/-! ## Claims -/

/-- C1. In a document returned by `fetchChuniTachiExport`, the records are in
order those of the rows that were not passed over, and the lamp of each is the
one the specification names for the row's flags: ALL JUSTICE CRITICAL when
isAllJustice is true and judgeJustice is 0, otherwise ALL JUSTICE when
isAllJustice is true, otherwise FULL COMBO when isFullCombo is true, otherwise
CLEAR when isClear is true, otherwise FAILED. The lamp is one of these five,
and isAllJustice with judgeJustice 0 gives ALL JUSTICE CRITICAL whatever the
other two flags are. -/
theorem chuni_lamp_of_exported_rows (tp : String → Except String Time)
    (profile : Except String (Int × Int)) (rows : List (Except String ChuniPlaylog))
    (doc : BatchManualImportChuni)
    (h : fetchChuniTachiExport tp profile (.ok rows) = .ok doc) :
    List.Forall₂
      (fun p s =>
        ∃ aj fc cl jj, p.IsAllJustice = some aj ∧ p.IsFullCombo = some fc ∧
          p.IsClear = some cl ∧ p.JudgeJustice = some jj ∧
          s.Lamp = chuniLampSpec aj fc cl jj ∧
          s.Lamp ∈ ["ALL JUSTICE CRITICAL", "ALL JUSTICE", "FULL COMBO", "CLEAR", "FAILED"] ∧
          (aj = true → jj = 0 → s.Lamp = "ALL JUSTICE CRITICAL"))
      (chuniKept tp rows) doc.Scores.toList := by
  refine List.Forall₂.imp ?_ (fetchChuni_ok tp profile rows doc h)
  intro p s hps
  obtain ⟨hreq, -, -, hs⟩ := chuniRow_emit_inv tp p s hps
  obtain ⟨-, -, -, -, hjj, haj, hfc, hcl⟩ := (chuniMissingRequired_eq_false_iff p).1 hreq
  obtain ⟨aj, haj⟩ := Option.ne_none_iff_exists'.1 haj
  obtain ⟨fc, hfc⟩ := Option.ne_none_iff_exists'.1 hfc
  obtain ⟨cl, hcl⟩ := Option.ne_none_iff_exists'.1 hcl
  obtain ⟨jj, hjj⟩ := Option.ne_none_iff_exists'.1 hjj
  have hlamp : s.Lamp = chuniLampSpec aj fc cl jj := by
    rw [hs]
    exact chuniLamp_eq_spec p aj fc cl jj haj hfc hcl hjj
  refine ⟨aj, fc, cl, jj, haj, hfc, hcl, hjj, hlamp, ?_, ?_⟩
  · rw [hlamp]
    unfold chuniLampSpec
    split_ifs <;> simp
  · intro h1 h2
    rw [hlamp]
    simp [chuniLampSpec, h1, h2]

/-- C1 at the one-row player `chuniRowFull`, whose isFullCombo and isClear are
false: the record's lamp is ALL JUSTICE CRITICAL. -/
theorem chuni_lamp_of_exported_rows_witness :
    fetchChuniTachiExport timeParseSample (.ok (1, 2)) (.ok [.ok chuniRowFull]) =
        .ok chuniDocFull ∧
      List.Forall₂
        (fun p s =>
          ∃ aj fc cl jj, p.IsAllJustice = some aj ∧ p.IsFullCombo = some fc ∧
            p.IsClear = some cl ∧ p.JudgeJustice = some jj ∧
            s.Lamp = chuniLampSpec aj fc cl jj ∧
            s.Lamp ∈ ["ALL JUSTICE CRITICAL", "ALL JUSTICE", "FULL COMBO", "CLEAR", "FAILED"] ∧
            (aj = true → jj = 0 → s.Lamp = "ALL JUSTICE CRITICAL"))
        (chuniKept timeParseSample [.ok chuniRowFull]) chuniDocFull.Scores.toList :=
  ⟨by decide,
    chuni_lamp_of_exported_rows timeParseSample (.ok (1, 2)) [.ok chuniRowFull] chuniDocFull
      (by decide)⟩

/-- C2. A Chunithm row in which romVersion, musicId, level, score,
judgeJustice, isAllJustice, isFullCombo or isClear is absent is passed over by
the loop body, and wherever it stands among the rows, `fetchChuniTachiExport`
returns exactly what it returns without the row: the row adds no record and
raises no error. -/
theorem chuni_row_missing_required_adds_nothing (tp : String → Except String Time)
    (profile : Except String (Int × Int)) (pre post : List (Except String ChuniPlaylog))
    (p : ChuniPlaylog)
    (h : p.RomVersion = none ∨ p.MusicID = none ∨ p.Level = none ∨ p.Score = none ∨
      p.JudgeJustice = none ∨ p.IsAllJustice = none ∨ p.IsFullCombo = none ∨
      p.IsClear = none) :
    chuniRow tp p = .skip ∧
      fetchChuniTachiExport tp profile (.ok (pre ++ .ok p :: post)) =
        fetchChuniTachiExport tp profile (.ok (pre ++ post)) := by
  have hmiss : chuniMissingRequired p = true := by
    by_contra hc
    have hc2 : chuniMissingRequired p = false := by simpa using hc
    obtain ⟨h1, h2, h3, h4, h5, h6, h7, h8⟩ := (chuniMissingRequired_eq_false_iff p).1 hc2
    rcases h with h | h | h | h | h | h | h | h <;> contradiction
  have hskip : chuniRow tp p = .skip := by simp [chuniRow, hmiss]
  exact ⟨hskip, fetchChuni_skip_row tp profile p pre post hskip⟩

/-- C2 at the row `chuniRowNoMusicId` placed after `chuniRowFull`: the
document is the one of `chuniRowFull` alone. -/
theorem chuni_row_missing_required_adds_nothing_witness :
    chuniRowNoMusicId.MusicID = none ∧
      chuniRow timeParseSample chuniRowNoMusicId = .skip ∧
      fetchChuniTachiExport timeParseSample (.ok (1, 2))
          (.ok ([.ok chuniRowFull] ++ .ok chuniRowNoMusicId :: [])) =
        fetchChuniTachiExport timeParseSample (.ok (1, 2)) (.ok ([.ok chuniRowFull] ++ [])) :=
  ⟨rfl,
    chuni_row_missing_required_adds_nothing timeParseSample (.ok (1, 2)) [.ok chuniRowFull] []
      chuniRowNoMusicId (Or.inr (Or.inl rfl))⟩

/-- C3, as amended. A row of `fetchOngekiExport` with musicId and techScore
present is not excluded by absent lamp-determining flags: whenever the export
succeeds, the row's record is among the scores, with the row's identifier and
score, and its lamp counts an absent flag as not set (LOSS when all four flags
are absent). -/
theorem ongeki_row_with_absent_flags_is_exported (tp : String → Except String Time)
    (pre post : List (Except String OngekiPlaylog)) (p : OngekiPlaylog)
    (doc : BatchManualImportGeki) (id sc : Int) (hid : p.MusicID = some id)
    (hsc : p.TechScore = some sc)
    (h : fetchOngekiExport tp (.ok (pre ++ .ok p :: post)) = .ok doc) :
    ∃ s, s ∈ doc.Scores.toList ∧ ongekiRow tp p = .emit s ∧ s.Identifier = toString id ∧
      s.Score = sc ∧ s.Lamp = ongekiLampComboAboveBell p ∧
      (p.IsAllBreak = none → p.IsFullCombo = none → p.IsFullBell = none →
        p.ClearStatus = none → s.Lamp = "LOSS") := by
  obtain ⟨s, hmem, q, hq, hrow⟩ :=
    forall₂_partner (fetchOngeki_ok tp _ doc h) (.ok p) (by simp)
  cases hq
  obtain ⟨hI, -, hS, hL, -⟩ := ongekiRow_emit_inv tp p s hrow
  refine ⟨s, hmem, hrow, ?_, ?_, ?_, ?_⟩
  · rw [hI, hid]; rfl
  · rw [hS, hsc]; rfl
  · rw [hL, ongekiLamp_eq]
  · intro h1 h2 h3 h4
    rw [hL, ongekiLamp_eq]
    simp [ongekiLampComboAboveBell, flagSet, clearSet, h1, h2, h3, h4]

/-- C3 as amended, at the one-row player `ongekiRowNoFlags`. -/
theorem ongeki_row_with_absent_flags_is_exported_witness :
    fetchOngekiExport timeParseSample (.ok ([] ++ .ok ongekiRowNoFlags :: [])) =
        .ok ongekiDocNoFlags ∧
      ∃ s, s ∈ ongekiDocNoFlags.Scores.toList ∧
        ongekiRow timeParseSample ongekiRowNoFlags = .emit s ∧ s.Identifier = toString (7 : Int) ∧
        s.Score = 1000000 ∧ s.Lamp = ongekiLampComboAboveBell ongekiRowNoFlags ∧
        (ongekiRowNoFlags.IsAllBreak = none → ongekiRowNoFlags.IsFullCombo = none →
          ongekiRowNoFlags.IsFullBell = none → ongekiRowNoFlags.ClearStatus = none →
          s.Lamp = "LOSS") :=
  ⟨by decide,
    ongeki_row_with_absent_flags_is_exported timeParseSample [] [] ongekiRowNoFlags
      ongekiDocNoFlags 7 1000000 rfl rfl
      (by decide)⟩

/-- C3 as stated fails: the row `ongekiRowNoFlags`, in which isAllBreak,
isFullCombo, isFullBell and clearStatus are all absent, contributes a record
to the document of `fetchOngekiExport`. -/
theorem ongeki_absent_flags_counterexample :
    ongekiRowNoFlags.IsAllBreak = none ∧ ongekiRowNoFlags.IsFullCombo = none ∧
      ongekiRowNoFlags.IsFullBell = none ∧ ongekiRowNoFlags.ClearStatus = none ∧
      fetchOngekiExport timeParseSample (.ok [.ok ongekiRowNoFlags]) =
        .ok ongekiDocNoFlags ∧
      ongekiDocNoFlags.Scores.toList = [ongekiScoreNoFlags] ∧
      ongekiDocNoFlags.Scores.toList ≠ [] := by
  decide

/-- C4. For a Chunithm row with all required columns present and a romVersion
of at least two characters, the loop body passes the row over exactly when
romVersion starts with "1." and level is 4, or romVersion starts with "2." and
level is 5; a row passed over yields no record and leaves the result of
`fetchChuniTachiExport` as it is without the row; and a row whose romVersion
starts with "2." and whose level is 4 is exported with difficulty ULTIMA: the
loop body appends a record with that difficulty, the export of a player with
this row alone returns a document whose scores are that one record, and every
document returned for rows containing the row has the record among its
scores. -/
theorem chuni_worlds_end_filter (tp : String → Except String Time)
    (profile : Except String (Int × Int)) (pre post : List (Except String ChuniPlaylog))
    (p : ChuniPlaylog) (hreq : chuniRequiredPresent p)
    (hlen : 2 ≤ p.RomVersion.String.length) :
    (chuniRow tp p = .skip ↔
        (goBytes "1." <+: goBytes p.RomVersion.String ∧ p.Level = some 4) ∨
          (goBytes "2." <+: goBytes p.RomVersion.String ∧ p.Level = some 5)) ∧
      (chuniRow tp p = .skip →
        (∀ s, chuniRow tp p ≠ .emit s) ∧
          fetchChuniTachiExport tp profile (.ok (pre ++ .ok p :: post)) =
            fetchChuniTachiExport tp profile (.ok (pre ++ post))) ∧
      (goBytes "2." <+: goBytes p.RomVersion.String → p.Level = some 4 →
        ∃ s, chuniRow tp p = .emit s ∧ s.Difficulty = "ULTIMA" ∧
          (∀ base medal : Int, ∃ doc,
            fetchChuniTachiExport tp (.ok (base, medal)) (.ok [.ok p]) = .ok doc ∧
              doc.Scores = .elems [s]) ∧
          ∀ doc, fetchChuniTachiExport tp profile (.ok (pre ++ .ok p :: post)) = .ok doc →
            s ∈ doc.Scores.toList) := by
  have hmiss := (chuniMissingRequired_eq_false_iff p).2 hreq
  have hbytes : 2 ≤ (goBytes p.RomVersion.String).length :=
    le_trans hlen (length_le_goBytes_length _)
  have hwe := chuniWorldsEnd_of_two_bytes p hbytes
  obtain ⟨-, -, hlv, -⟩ := hreq
  obtain ⟨lv, hlv⟩ := Option.ne_none_iff_exists'.1 hlv
  have h1 := take_two_eq_iff (goBytes p.RomVersion.String) "1." (by decide)
  have h2 := take_two_eq_iff (goBytes p.RomVersion.String) "2." (by decide)
  have hI : p.Level.Int64 = lv := by simp [NullInt64.Int64, hlv]
  refine ⟨?_, ?_, ?_⟩
  · rw [chuniRow_skip_iff tp p hmiss, hwe, hI, hlv]
    simp [h1, h2]
  · intro hskip
    exact ⟨fun s hs => by rw [hskip] at hs; exact absurd hs (by simp),
      fetchChuni_skip_row tp profile p pre post hskip⟩
  · intro hpre hl4
    have hlv4 : lv = 4 := by rw [hlv] at hl4; exact Option.some.inj hl4
    have hne : ¬ goBytes "1." <+: goBytes p.RomVersion.String := by
      intro h1p
      have e1 := h1.2 h1p
      have e2 := h2.2 hpre
      rw [e1] at e2
      exact absurd e2 (by decide)
    have hwf : chuniWorldsEnd p = some false := by
      rw [hwe, hI, hlv4]
      simp [h1, h2, hne]
    have hidx : indexAt chuniDifficulties p.Level.Int64 = some "ULTIMA" := by
      rw [hI, hlv4]; decide
    have hrow :
        chuniRow tp p =
          .emit
            { Identifier := toString p.MusicID.Int64
              MatchType := "inGameID"
              Score := p.Score.Int64
              Lamp := chuniLamp p
              Difficulty := "ULTIMA"
              TimeAchieved := chuniTimeAchieved tp p
              Judgements := chuniJudgements p
              Optional := chuniOptional p } := by
      unfold chuniRow
      simp only [hmiss, hwf, hidx, Bool.false_eq_true, if_false]
    exact ⟨_, hrow, rfl, fun base medal => fetchChuni_single_emit tp base medal p _ hrow,
      fun doc hdoc => fetchChuni_emit_mem tp profile pre post p _ doc hrow hdoc⟩

/-- C4 at the row `chuniRowWorldsEnd` (romVersion "2.00", level 5), which is
passed over, and at the row `chuniRowFull` (romVersion "2.00", level 4)
between two such rows: the returned document is `chuniDocFull`, whose one
record is the ULTIMA record of `chuniRowFull`. -/
theorem chuni_worlds_end_filter_witness :
    (chuniRequiredPresent chuniRowWorldsEnd ∧
        2 ≤ chuniRowWorldsEnd.RomVersion.String.length ∧
        (chuniRow timeParseSample chuniRowWorldsEnd = .skip ↔
          (goBytes "1." <+: goBytes chuniRowWorldsEnd.RomVersion.String ∧
              chuniRowWorldsEnd.Level = some 4) ∨
            (goBytes "2." <+: goBytes chuniRowWorldsEnd.RomVersion.String ∧
              chuniRowWorldsEnd.Level = some 5))) ∧
      (chuniRequiredPresent chuniRowFull ∧ 2 ≤ chuniRowFull.RomVersion.String.length ∧
        goBytes "2." <+: goBytes chuniRowFull.RomVersion.String ∧
        chuniRowFull.Level = some 4 ∧
        fetchChuniTachiExport timeParseSample (.ok (1, 2))
            (.ok ([.ok chuniRowWorldsEnd] ++ .ok chuniRowFull :: [.ok chuniRowWorldsEnd])) =
          .ok chuniDocFull ∧
        chuniDocFull.Scores.toList = [chuniScoreFull] ∧
        ∃ s, chuniRow timeParseSample chuniRowFull = .emit s ∧ s.Difficulty = "ULTIMA" ∧
          (∀ base medal : Int, ∃ doc,
            fetchChuniTachiExport timeParseSample (.ok (base, medal)) (.ok [.ok chuniRowFull]) =
                .ok doc ∧
              doc.Scores = .elems [s]) ∧
          ∀ doc,
            fetchChuniTachiExport timeParseSample (.ok (1, 2))
                (.ok ([.ok chuniRowWorldsEnd] ++ .ok chuniRowFull :: [.ok chuniRowWorldsEnd])) =
              .ok doc →
            s ∈ doc.Scores.toList) :=
  ⟨⟨by simp [chuniRequiredPresent, chuniRowWorldsEnd, chuniRowFull], by decide,
      (chuni_worlds_end_filter timeParseSample (.ok (1, 2)) [] [] chuniRowWorldsEnd
        (by simp [chuniRequiredPresent, chuniRowWorldsEnd, chuniRowFull]) (by decide)).1⟩,
    ⟨by simp [chuniRequiredPresent, chuniRowFull], by decide, ⟨goBytes "00", by decide⟩, rfl,
      by decide, by decide,
      (chuni_worlds_end_filter timeParseSample (.ok (1, 2)) [.ok chuniRowWorldsEnd]
        [.ok chuniRowWorldsEnd] chuniRowFull (by simp [chuniRequiredPresent, chuniRowFull])
        (by decide)).2.2 ⟨goBytes "00", by decide⟩ rfl⟩⟩

/-- C5 at the failing input. For a player without play-log rows,
`fetchChuniTachiExport` returns a document whose `Scores` is the nil slice,
which `encoding/json` writes as `null`, not as an empty array. -/
theorem chuni_scores_null_without_rows (tp : String → Except String Time) (base medal : Int) :
    ∃ doc, fetchChuniTachiExport tp (.ok (base, medal)) (.ok []) = .ok doc ∧
      doc.Scores = .nil ∧ marshalSlice doc.Scores = .null ∧
      marshalSlice doc.Scores ≠ .array 0 :=
  ⟨_, rfl, rfl, rfl, by simp [marshalSlice]⟩

/-- C6 at the failing input. The row `ongekiRowNoMiss` has neither judgeMiss
nor platinumScore, and `fetchOngekiExport` exports it with both sub-objects
present, the absent counters written as 0. -/
theorem ongeki_absent_counter_exported_as_zero :
    ongekiRowNoMiss.JudgeMiss = none ∧ ongekiRowNoMiss.PlatinumScore = none ∧
      fetchOngekiExport timeParseSample (.ok [.ok ongekiRowNoMiss]) =
        .ok ongekiDocNoMiss ∧
      ongekiDocNoMiss.Scores = .elems [ongekiScoreNoMiss] ∧
      ongekiScoreNoMiss.Judgements = some { CBreak := 288, Break := 10, Hit := 2, Miss := 0 } ∧
      ongekiScoreNoMiss.Optional =
        some { MaxCombo := 300, Damage := 0, BellCount := 50, TotalBellCount := 50,
               PlatScore := 0 } := by
  decide

/-- C7, as amended. In a document returned by `fetchChuniTachiExport`, the
record of a row has the judgements sub-object exactly when judgeCritical,
judgeJustice, judgeAttack and judgeGuilty are present in the row (judgeHeaven
is not asked for), and the optional sub-object exactly when maxCombo is
present; the two tests read different columns. -/
theorem chuni_subobject_presence (tp : String → Except String Time)
    (profile : Except String (Int × Int)) (rows : List (Except String ChuniPlaylog))
    (doc : BatchManualImportChuni)
    (h : fetchChuniTachiExport tp profile (.ok rows) = .ok doc) :
    List.Forall₂
      (fun p s =>
        (s.Judgements ≠ none ↔
          p.JudgeCritical ≠ none ∧ p.JudgeJustice ≠ none ∧ p.JudgeAttack ≠ none ∧
            p.JudgeGuilty ≠ none) ∧
        (s.Optional ≠ none ↔ p.MaxCombo ≠ none))
      (chuniKept tp rows) doc.Scores.toList := by
  refine List.Forall₂.imp ?_ (fetchChuni_ok tp profile rows doc h)
  intro p s hps
  obtain ⟨-, -, -, hs⟩ := chuniRow_emit_inv tp p s hps
  rw [hs]
  constructor
  · simp only [chuniJudgements, NullInt64.Valid]
    cases p.JudgeCritical <;> cases p.JudgeJustice <;> cases p.JudgeAttack <;>
      cases p.JudgeGuilty <;> simp
  · simp only [chuniOptional, NullInt64.Valid]
    cases p.MaxCombo <;> simp

/-- C7 as amended, at the one-row player `chuniRowNoHeaven`. -/
theorem chuni_subobject_presence_witness :
    fetchChuniTachiExport timeParseSample (.ok (1, 2)) (.ok [.ok chuniRowNoHeaven]) =
        .ok chuniDocNoHeaven ∧
      List.Forall₂
        (fun p s =>
          (s.Judgements ≠ none ↔
            p.JudgeCritical ≠ none ∧ p.JudgeJustice ≠ none ∧ p.JudgeAttack ≠ none ∧
              p.JudgeGuilty ≠ none) ∧
          (s.Optional ≠ none ↔ p.MaxCombo ≠ none))
        (chuniKept timeParseSample [.ok chuniRowNoHeaven])
        chuniDocNoHeaven.Scores.toList :=
  ⟨by decide,
    chuni_subobject_presence timeParseSample (.ok (1, 2)) [.ok chuniRowNoHeaven]
      chuniDocNoHeaven (by decide)⟩

/-- C7 as stated fails: the row `chuniRowNoHeaven` has no judgeHeaven, and its
record has the judgements sub-object. -/
theorem chuni_judgements_without_heaven_counterexample :
    fetchChuniTachiExport timeParseSample (.ok (1, 2)) (.ok [.ok chuniRowNoHeaven]) =
        .ok chuniDocNoHeaven ∧
      chuniDocNoHeaven.Scores.toList = [chuniScoreNoHeaven] ∧
      chuniRowNoHeaven.JudgeHeaven = none ∧ chuniScoreNoHeaven.Judgements ≠ none ∧
      ¬ (chuniScoreNoHeaven.Judgements ≠ none ↔
        chuniRowNoHeaven.JudgeHeaven ≠ none ∧ chuniRowNoHeaven.JudgeCritical ≠ none ∧
          chuniRowNoHeaven.JudgeJustice ≠ none ∧ chuniRowNoHeaven.JudgeAttack ≠ none ∧
          chuniRowNoHeaven.JudgeGuilty ≠ none) := by
  decide

/-- C8, as amended. In a document returned by `fetchOngekiExport` there is one
record for each row, in order, and its lamp is the strongest outcome whose
flag is set under the order LOSS < CLEAR < FULL BELL < FULL COMBO < ALL BREAK;
a row with isFullBell = 1 and isFullCombo = 1 whose isAllBreak is not 1 gets
FULL COMBO. -/
theorem ongeki_lamp_of_rows (tp : String → Except String Time)
    (rows : List (Except String OngekiPlaylog)) (doc : BatchManualImportGeki)
    (h : fetchOngekiExport tp (.ok rows) = .ok doc) :
    List.Forall₂
      (fun (r : Except String OngekiPlaylog) (s : BatchManualScoreGeki) =>
        ∃ p, r = .ok p ∧ s.Lamp = ongekiLampComboAboveBell p ∧
          (p.IsFullBell = some 1 → p.IsFullCombo = some 1 → p.IsAllBreak ≠ some 1 →
            s.Lamp = "FULL COMBO"))
      rows doc.Scores.toList := by
  refine List.Forall₂.imp ?_ (fetchOngeki_ok tp rows doc h)
  rintro r s ⟨p, rfl, hrow⟩
  obtain ⟨-, -, -, hL, -⟩ := ongekiRow_emit_inv tp p s hrow
  refine ⟨p, rfl, by rw [hL, ongekiLamp_eq], ?_⟩
  intro hb hc ha
  rw [hL, ongekiLamp_eq]
  simp [ongekiLampComboAboveBell, flagSet, hc, ha]

/-- C8 as amended, at the one-row player `ongekiRowFull`. -/
theorem ongeki_lamp_of_rows_witness :
    fetchOngekiExport timeParseSample (.ok [.ok ongekiRowFull]) = .ok ongekiDocFull ∧
      List.Forall₂
        (fun (r : Except String OngekiPlaylog) (s : BatchManualScoreGeki) =>
          ∃ p, r = .ok p ∧ s.Lamp = ongekiLampComboAboveBell p ∧
            (p.IsFullBell = some 1 → p.IsFullCombo = some 1 → p.IsAllBreak ≠ some 1 →
              s.Lamp = "FULL COMBO"))
        [.ok ongekiRowFull] ongekiDocFull.Scores.toList :=
  ⟨by decide, ongeki_lamp_of_rows timeParseSample [.ok ongekiRowFull] ongekiDocFull (by decide)⟩

/-- C8 as stated fails: the row `ongekiRowFull` has isFullBell = 1,
isFullCombo = 1 and isAllBreak = 0, the order of the claim gives it FULL BELL,
and `fetchOngekiExport` exports it with the lamp FULL COMBO. -/
theorem ongeki_full_bell_counterexample :
    ongekiRowFull.IsFullBell = some 1 ∧ ongekiRowFull.IsFullCombo = some 1 ∧
      ongekiRowFull.IsAllBreak = some 0 ∧
      ongekiLampBellAboveCombo ongekiRowFull = "FULL BELL" ∧
      fetchOngekiExport timeParseSample (.ok [.ok ongekiRowFull]) = .ok ongekiDocFull ∧
      ongekiDocFull.Scores = .elems [ongekiScoreFull] ∧ ongekiScoreFull.Lamp = "FULL COMBO" ∧
      ongekiScoreFull.Lamp ≠ ongekiLampBellAboveCombo ongekiRowFull := by
  decide

/-- C9 at the failing input. The row `chuniRowLevelSix` has all required
columns and is not a WORLD'S END row, its level 6 is outside the five-entry
difficulty table, and `fetchChuniTachiExport` panics on the index. -/
theorem chuni_level_outside_table_faults :
    chuniMissingRequired chuniRowLevelSix = false ∧
      chuniWorldsEnd chuniRowLevelSix = some false ∧
      chuniRowLevelSix.Level = some 6 ∧
      fetchChuniTachiExport timeParseSample (.ok (1, 2)) (.ok [.ok chuniRowLevelSix]) =
        .fault "index out of range" := by
  decide

/-- C10. In a document returned by `fetchOngekiExport` there is one record for
each row, in order, and for a row with a present difficulty code the label is
BASIC for 0, ADVANCED for 1, EXPERT for 2, MASTER for 3, LUNATIC for 10 and
UNKNOWN for every other integer. -/
theorem ongeki_difficulty_label (tp : String → Except String Time)
    (rows : List (Except String OngekiPlaylog)) (doc : BatchManualImportGeki)
    (h : fetchOngekiExport tp (.ok rows) = .ok doc) :
    List.Forall₂
      (fun (r : Except String OngekiPlaylog) (s : BatchManualScoreGeki) =>
        ∃ p, r = .ok p ∧ ∀ c, p.Difficulty = some c →
          s.Difficulty = ongekiLabelSpec c ∧
            (c ≠ 0 → c ≠ 1 → c ≠ 2 → c ≠ 3 → c ≠ 10 → s.Difficulty = "UNKNOWN"))
      rows doc.Scores.toList := by
  refine List.Forall₂.imp ?_ (fetchOngeki_ok tp rows doc h)
  rintro r s ⟨p, rfl, hrow⟩
  obtain ⟨-, -, -, -, hD, -⟩ := ongekiRow_emit_inv tp p s hrow
  refine ⟨p, rfl, fun c hc => ?_⟩
  have hl : s.Difficulty = ongekiLabelSpec c := by rw [hD, ongekiDifficulty_eq p c hc]
  refine ⟨hl, fun h0 h1 h2 h3 h10 => ?_⟩
  rw [hl]
  simp [ongekiLabelSpec, h0, h1, h2, h3, h10]

/-- C10 at the one-row player `ongekiRowFull`, whose difficulty code is 10. -/
theorem ongeki_difficulty_label_witness :
    fetchOngekiExport timeParseSample (.ok [.ok ongekiRowFull]) = .ok ongekiDocFull ∧
      List.Forall₂
        (fun (r : Except String OngekiPlaylog) (s : BatchManualScoreGeki) =>
          ∃ p, r = .ok p ∧ ∀ c, p.Difficulty = some c →
            s.Difficulty = ongekiLabelSpec c ∧
              (c ≠ 0 → c ≠ 1 → c ≠ 2 → c ≠ 3 → c ≠ 10 → s.Difficulty = "UNKNOWN"))
        [.ok ongekiRowFull] ongekiDocFull.Scores.toList :=
  ⟨by decide,
    ongeki_difficulty_label timeParseSample [.ok ongekiRowFull] ongekiDocFull (by decide)⟩

/-- C12. When the query and every scan succeed, `fetchOngekiExport` returns an
error exactly when some row has a present userPlayDate that the parser
rejects, and returns a document exactly when no row has; an error carries no
document, so the records of the rows before the rejected date are not
returned. A row without userPlayDate reaches the `append` with no
timeAchieved. -/
theorem ongeki_error_iff_date_unparsable (tp : String → Except String Time)
    (ps : List OngekiPlaylog) :
    ((∃ err, fetchOngekiExport tp (.ok (ps.map .ok)) = .error err) ↔
        ∃ p, p ∈ ps ∧ ∃ value err, p.UserPlayDate = some value ∧ tp value = .error err) ∧
      ((∃ doc, fetchOngekiExport tp (.ok (ps.map .ok)) = .ok doc) ↔
        ¬ ∃ p, p ∈ ps ∧ ∃ value err, p.UserPlayDate = some value ∧ tp value = .error err) ∧
      (∀ p, p.UserPlayDate = none →
        ∃ s, ongekiRow tp p = .emit s ∧ s.TimeAchieved = none) := by
  obtain ⟨h1, h2⟩ := ongekiLoop_error_iff tp ps (.elems [])
  refine ⟨?_, ?_, ?_⟩
  · rw [← h1]
    simp only [fetchOngekiExport]
    cases hloop : ongekiLoop tp (ps.map .ok) (.elems []) <;> simp
  · rw [← h2]
    simp only [fetchOngekiExport]
    cases hloop : ongekiLoop tp (ps.map .ok) (.elems []) <;> simp
  · intro p hp
    unfold ongekiRow
    simp only [hp, NullString.Valid, Option.isSome_none, Bool.false_eq_true, if_false]
    exact ⟨_, rfl, rfl⟩


/-- C12 at a player whose second row has the userPlayDate "yesterday": the
export is an error although the first row is well formed. -/
theorem ongeki_error_iff_date_unparsable_witness :
    fetchOngekiExport timeParseSample (.ok ([ongekiRowFull, ongekiRowBadDate].map .ok)) =
        .error "failed to parse userPlayDate: cannot parse" ∧
      ∃ err, fetchOngekiExport timeParseSample
        (.ok ([ongekiRowFull, ongekiRowBadDate].map .ok)) = .error err :=
  ⟨by decide,
    (ongeki_error_iff_date_unparsable timeParseSample [ongekiRowFull, ongekiRowBadDate]).1.2
      ⟨ongekiRowBadDate, by simp, "yesterday", "cannot parse", rfl, rfl⟩⟩

/-- C13. In a document returned by `fetchChuniTachiExport`, the record of a row
has timeAchieved exactly when the row's userPlayDate is present and the parser
accepts it. The dates decide nothing else: for every list of rows, the export
of the rows with their dates made absent does what the export of the rows
does (the same error or panic, or a document), and its document is the same
with timeAchieved left out of every record. -/
theorem chuni_timeAchieved_presence (tp : String → Except String Time)
    (profile : Except String (Int × Int)) (rows : List (Except String ChuniPlaylog))
    (doc : BatchManualImportChuni)
    (h : fetchChuniTachiExport tp profile (.ok rows) = .ok doc) :
    List.Forall₂
        (fun p s =>
          (s.TimeAchieved ≠ none ↔ ∃ value t, p.UserPlayDate = some value ∧ tp value = .ok t))
        (chuniKept tp rows) doc.Scores.toList ∧
      fetchChuniTachiExport tp profile (.ok (rows.map (Except.map chuniRowWithoutDate))) =
        .ok (chuniDocWithoutTimes doc) ∧
      ∀ (rows' : List (Except String ChuniPlaylog)),
        fetchChuniTachiExport tp profile (.ok (rows'.map (Except.map chuniRowWithoutDate))) =
          (fetchChuniTachiExport tp profile (.ok rows')).map chuniDocWithoutTimes := by
  refine ⟨?_, ?_, fun rows' => fetchChuni_withoutDate tp profile rows'⟩
  · refine List.Forall₂.imp ?_ (fetchChuni_ok tp profile rows doc h)
    intro p s hps
    obtain ⟨-, -, -, hs⟩ := chuniRow_emit_inv tp p s hps
    rw [hs]
    simp only [chuniTimeAchieved, NullString.Valid, NullString.String]
    cases hd : p.UserPlayDate with
    | none => simp
    | some value =>
      cases ht : tp value with
      | error e => simp [ht]
      | ok t => simp [ht]
  · rw [fetchChuni_withoutDate, h]
    rfl

/-- C13 at a player whose only row has the userPlayDate "yesterday": the
export succeeds and the record has every field but timeAchieved. -/
theorem chuni_timeAchieved_presence_witness :
    fetchChuniTachiExport timeParseSample (.ok (1, 2)) (.ok [.ok chuniRowBadDate]) =
        .ok chuniDocBadDate ∧
      List.Forall₂
        (fun p s =>
          (s.TimeAchieved ≠ none ↔
            ∃ value t, p.UserPlayDate = some value ∧ timeParseSample value = .ok t))
        (chuniKept timeParseSample [.ok chuniRowBadDate]) chuniDocBadDate.Scores.toList :=
  ⟨by decide,
    (chuni_timeAchieved_presence timeParseSample (.ok (1, 2)) [.ok chuniRowBadDate]
      chuniDocBadDate (by decide)).1⟩

/-- C14. For every integer, `getChuniTachiClass` returns DAN_I, DAN_II,
DAN_III, DAN_IV, DAN_V, DAN_INFINITE for 1 to 6, the empty string for 0 and
nil for every negative integer and every integer above 6 (7 for one); in a
returned document dan is this function of classEmblemBase and emblem this
function of classEmblemMedal. -/
theorem chuni_classes_of_profile (tp : String → Except String Time) (base medal : Int)
    (query : Except String (List (Except String ChuniPlaylog))) (doc : BatchManualImportChuni)
    (h : fetchChuniTachiExport tp (.ok (base, medal)) query = .ok doc) :
    doc.Classes = some { Dan := chuniClassSpec base, Emblem := chuniClassSpec medal } ∧
      (∀ i : Int, getChuniTachiClass i = chuniClassSpec i) ∧
      (∀ i : Int, i < 0 ∨ 6 < i → getChuniTachiClass i = none) ∧
      getChuniTachiClass 0 = some "" ∧ getChuniTachiClass 6 = some "DAN_INFINITE" ∧
      getChuniTachiClass 7 = none := by
  refine ⟨?_, getChuniTachiClass_eq_spec, ?_, by decide, by decide, by decide⟩
  · unfold fetchChuniTachiExport at h
    cases query with
    | error e => simp at h
    | ok rows =>
      simp only at h
      cases hloop : chuniLoop tp rows .nil with
      | error e => simp [hloop] at h
      | fault e => simp [hloop] at h
      | ok scores =>
        simp only [hloop, Outcome.ok.injEq] at h
        subst h
        simp only [getChuniTachiClass_eq_spec]
  · intro i hi
    rw [getChuniTachiClass_eq_spec]
    unfold chuniClassSpec
    rcases hi with hi | hi <;> repeat rw [if_neg (by omega)]

/-- C14 at the profile (1, 2) of the one-row player `chuniRowFull`. -/
theorem chuni_classes_of_profile_witness :
    fetchChuniTachiExport timeParseSample (.ok (1, 2)) (.ok [.ok chuniRowFull]) =
        .ok chuniDocFull ∧
      chuniDocFull.Classes = some { Dan := chuniClassSpec 1, Emblem := chuniClassSpec 2 } :=
  ⟨by decide,
    (chuni_classes_of_profile timeParseSample 1 2 (.ok [.ok chuniRowFull]) chuniDocFull
      (by decide)).1⟩

/-- C15. In a document returned by `fetchChuniTachiExport` the records are, in
row order, exactly the records of the rows that were not passed over, one for
each, so there are as many records as such rows; and a document returned for
the same rows followed by more rows begins with the same records. The same
holds for `fetchOngekiExport`, which passes over no row: one record for every
row. -/
theorem scores_follow_rows (tp : String → Except String Time)
    (profile : Except String (Int × Int)) (rowsC : List (Except String ChuniPlaylog))
    (docC : BatchManualImportChuni) (rowsO : List (Except String OngekiPlaylog))
    (docO : BatchManualImportGeki)
    (hC : fetchChuniTachiExport tp profile (.ok rowsC) = .ok docC)
    (hO : fetchOngekiExport tp (.ok rowsO) = .ok docO) :
    (List.Forall₂ (fun p s => chuniRow tp p = .emit s) (chuniKept tp rowsC)
          docC.Scores.toList ∧
        docC.Scores.toList.length = (chuniKept tp rowsC).length ∧
        ∀ more doc', fetchChuniTachiExport tp profile (.ok (rowsC ++ more)) = .ok doc' →
          docC.Scores.toList <+: doc'.Scores.toList) ∧
      (List.Forall₂
          (fun (r : Except String OngekiPlaylog) (s : BatchManualScoreGeki) =>
            ∃ p, r = .ok p ∧ ongekiRow tp p = .emit s)
          rowsO docO.Scores.toList ∧
        docO.Scores.toList.length = rowsO.length ∧
        ∀ more doc', fetchOngekiExport tp (.ok (rowsO ++ more)) = .ok doc' →
          docO.Scores.toList <+: doc'.Scores.toList) := by
  have hfC := fetchChuni_ok tp profile rowsC docC hC
  have hfO := fetchOngeki_ok tp rowsO docO hO
  refine ⟨⟨hfC, hfC.length_eq.symm, ?_⟩, ⟨hfO, hfO.length_eq.symm, ?_⟩⟩
  · intro more doc' h'
    have hl := fetchChuni_loop tp profile rowsC docC hC
    have hl' := fetchChuni_loop tp profile (rowsC ++ more) doc' h'
    rw [chuniLoop_append, hl] at hl'
    obtain ⟨recs, hout, -⟩ := chuniLoop_ok tp more docC.Scores doc'.Scores hl'
    exact ⟨recs, hout.symm⟩
  · intro more doc' h'
    have hl := fetchOngeki_loop tp rowsO docO hO
    have hl' := fetchOngeki_loop tp (rowsO ++ more) doc' h'
    rw [ongekiLoop_append, hl] at hl'
    obtain ⟨recs, hout, -⟩ := ongekiLoop_ok tp more docO.Scores doc'.Scores hl'
    exact ⟨recs, hout.symm⟩


/-- C15 at the Chunithm rows `chuniRowNoMusicId`, `chuniRowFull` (one passed
over, one exported) and the Ongeki row `ongekiRowFull`. -/
theorem scores_follow_rows_witness :
    fetchChuniTachiExport timeParseSample (.ok (1, 2))
          (.ok [.ok chuniRowNoMusicId, .ok chuniRowFull]) = .ok chuniDocFull ∧
      fetchOngekiExport timeParseSample (.ok [.ok ongekiRowFull]) = .ok ongekiDocFull ∧
      List.Forall₂ (fun p s => chuniRow timeParseSample p = .emit s)
        (chuniKept timeParseSample [.ok chuniRowNoMusicId, .ok chuniRowFull])
        chuniDocFull.Scores.toList ∧
      ongekiDocFull.Scores.toList.length =
        ([.ok ongekiRowFull] : List (Except String OngekiPlaylog)).length :=
  ⟨by decide, by decide,
    (scores_follow_rows timeParseSample (.ok (1, 2)) [.ok chuniRowNoMusicId, .ok chuniRowFull]
      chuniDocFull [.ok ongekiRowFull] ongekiDocFull (by decide) (by decide)).1.1,
    (scores_follow_rows timeParseSample (.ok (1, 2)) [.ok chuniRowNoMusicId, .ok chuniRowFull]
      chuniDocFull [.ok ongekiRowFull] ongekiDocFull (by decide) (by decide)).2.2.1⟩

/-- C16. In a document returned by `fetchChuniTachiExport`, the record of a row
has the decimal rendering of the row's musicId as identifier, "inGameID" as
matchType and the row's score as score; the row's level is from 0 to 4 and
the difficulty is the entry of BASIC, ADVANCED, EXPERT, MASTER, ULTIMA at the
level, MASTER for level 3. -/
theorem chuni_record_fields (tp : String → Except String Time)
    (profile : Except String (Int × Int)) (rows : List (Except String ChuniPlaylog))
    (doc : BatchManualImportChuni)
    (h : fetchChuniTachiExport tp profile (.ok rows) = .ok doc) :
    List.Forall₂
      (fun p s =>
        ∃ id lv sc, p.MusicID = some id ∧ p.Level = some lv ∧ p.Score = some sc ∧
          0 ≤ lv ∧ lv ≤ 4 ∧ s.Identifier = toString id ∧ s.MatchType = "inGameID" ∧
          s.Score = sc ∧ chuniDifficulties[lv.toNat]? = some s.Difficulty ∧
          s.Difficulty = chuniLabelSpec lv ∧ (lv = 3 → s.Difficulty = "MASTER"))
      (chuniKept tp rows) doc.Scores.toList := by
  refine List.Forall₂.imp ?_ (fetchChuni_ok tp profile rows doc h)
  intro p s hps
  obtain ⟨hreq, -, hidx, hs⟩ := chuniRow_emit_inv tp p s hps
  obtain ⟨-, hid, hlv, hsc, -⟩ := (chuniMissingRequired_eq_false_iff p).1 hreq
  obtain ⟨id, hid⟩ := Option.ne_none_iff_exists'.1 hid
  obtain ⟨lv, hlv⟩ := Option.ne_none_iff_exists'.1 hlv
  obtain ⟨sc, hsc⟩ := Option.ne_none_iff_exists'.1 hsc
  have hL : p.Level.Int64 = lv := by simp [NullInt64.Int64, hlv]
  rw [hL] at hidx
  obtain ⟨h0, h4, hd⟩ := indexAt_chuniDifficulties lv s.Difficulty hidx
  have hget : chuniDifficulties[lv.toNat]? = some s.Difficulty := by
    unfold indexAt at hidx
    rwa [if_pos h0] at hidx
  refine ⟨id, lv, sc, hid, hlv, hsc, h0, h4, ?_, ?_, ?_, hget, hd, ?_⟩
  · rw [hs]; simp [NullInt64.Int64, hid]
  · rw [hs]
  · rw [hs]; simp [NullInt64.Int64, hsc]
  · intro h3
    rw [hd, h3]
    rfl

/-- C16 at the one-row player `chuniRowFull` (musicId 3, level 4). -/
theorem chuni_record_fields_witness :
    fetchChuniTachiExport timeParseSample (.ok (1, 2)) (.ok [.ok chuniRowFull]) =
        .ok chuniDocFull ∧
      List.Forall₂
        (fun p s =>
          ∃ id lv sc, p.MusicID = some id ∧ p.Level = some lv ∧ p.Score = some sc ∧
            0 ≤ lv ∧ lv ≤ 4 ∧ s.Identifier = toString id ∧ s.MatchType = "inGameID" ∧
            s.Score = sc ∧ chuniDifficulties[lv.toNat]? = some s.Difficulty ∧
            s.Difficulty = chuniLabelSpec lv ∧ (lv = 3 → s.Difficulty = "MASTER"))
        (chuniKept timeParseSample [.ok chuniRowFull]) chuniDocFull.Scores.toList :=
  ⟨by decide,
    chuni_record_fields timeParseSample (.ok (1, 2)) [.ok chuniRowFull] chuniDocFull
      (by decide)⟩

/-- C17. In a document returned by `fetchOngekiExport`, the record of a row in
which musicId, techScore, the four judgement counters and the five
supplementary counters are present has the decimal rendering of musicId as
identifier, techScore as score, and the counters, each unchanged, in the
judgements and optional sub-objects. -/
theorem ongeki_numeric_fields_verbatim (tp : String → Except String Time)
    (rows : List (Except String OngekiPlaylog)) (doc : BatchManualImportGeki)
    (h : fetchOngekiExport tp (.ok rows) = .ok doc) :
    List.Forall₂
      (fun (r : Except String OngekiPlaylog) (s : BatchManualScoreGeki) =>
        ∃ p, r = .ok p ∧
          ∀ id ts cb br hit miss mc dmg bell total plat : Int,
            p.MusicID = some id → p.TechScore = some ts → p.JudgeCriticalBreak = some cb →
            p.JudgeBreak = some br → p.JudgeHit = some hit → p.JudgeMiss = some miss →
            p.MaxCombo = some mc → p.DamageCount = some dmg → p.BellCount = some bell →
            p.TotalBellCount = some total → p.PlatinumScore = some plat →
              s.Identifier = toString id ∧ s.Score = ts ∧
                s.Judgements = some { CBreak := cb, Break := br, Hit := hit, Miss := miss } ∧
                s.Optional =
                  some { MaxCombo := mc, Damage := dmg, BellCount := bell,
                         TotalBellCount := total, PlatScore := plat })
      rows doc.Scores.toList := by
  refine List.Forall₂.imp ?_ (fetchOngeki_ok tp rows doc h)
  rintro r s ⟨p, rfl, hrow⟩
  obtain ⟨hI, -, hS, -, -, hJ, hO⟩ := ongekiRow_emit_inv tp p s hrow
  refine ⟨p, rfl, ?_⟩
  intro id ts cb br hit miss mc dmg bell total plat h1 h2 h3 h4 h5 h6 h7 h8 h9 h10 h11
  rw [hI, hS, hJ, hO]
  simp [NullInt32.Int32, h1, h2, h3, h4, h5, h6, h7, h8, h9, h10, h11]

/-- C17 at the one-row player `ongekiRowFull`. -/
theorem ongeki_numeric_fields_verbatim_witness :
    fetchOngekiExport timeParseSample (.ok [.ok ongekiRowFull]) = .ok ongekiDocFull ∧
      List.Forall₂
        (fun (r : Except String OngekiPlaylog) (s : BatchManualScoreGeki) =>
          ∃ p, r = .ok p ∧
            ∀ id ts cb br hit miss mc dmg bell total plat : Int,
              p.MusicID = some id → p.TechScore = some ts → p.JudgeCriticalBreak = some cb →
              p.JudgeBreak = some br → p.JudgeHit = some hit → p.JudgeMiss = some miss →
              p.MaxCombo = some mc → p.DamageCount = some dmg → p.BellCount = some bell →
              p.TotalBellCount = some total → p.PlatinumScore = some plat →
                s.Identifier = toString id ∧ s.Score = ts ∧
                  s.Judgements = some { CBreak := cb, Break := br, Hit := hit, Miss := miss } ∧
                  s.Optional =
                    some { MaxCombo := mc, Damage := dmg, BellCount := bell,
                           TotalBellCount := total, PlatScore := plat })
        [.ok ongekiRowFull] ongekiDocFull.Scores.toList :=
  ⟨by decide,
    ongeki_numeric_fields_verbatim timeParseSample [.ok ongekiRowFull] ongekiDocFull
      (by decide)⟩

/-- C18. In a document returned by `fetchOngekiExport` every row has one
record, whatever flags are present, and its lamp is one of ALL BREAK, FULL
COMBO, FULL BELL, CLEAR, LOSS, decided by which flags are set, where an absent
flag and a flag other than 1 (clearStatus: not above 0) is not set: a row with
isAllBreak = 1 gets ALL BREAK whatever the other flags are, and a row with no
flag set, as when all four are absent, gets LOSS. -/
theorem ongeki_lamp_total (tp : String → Except String Time)
    (rows : List (Except String OngekiPlaylog)) (doc : BatchManualImportGeki)
    (h : fetchOngekiExport tp (.ok rows) = .ok doc) :
    List.Forall₂
      (fun (r : Except String OngekiPlaylog) (s : BatchManualScoreGeki) =>
        ∃ p, r = .ok p ∧
          s.Lamp ∈ ["ALL BREAK", "FULL COMBO", "FULL BELL", "CLEAR", "LOSS"] ∧
          s.Lamp = ongekiLampComboAboveBell p ∧
          (p.IsAllBreak = some 1 → s.Lamp = "ALL BREAK") ∧
          (p.IsAllBreak ≠ some 1 → p.IsFullCombo ≠ some 1 → p.IsFullBell ≠ some 1 →
            (∀ c, p.ClearStatus = some c → c ≤ 0) → s.Lamp = "LOSS") ∧
          (p.IsAllBreak = none → p.IsFullCombo = none → p.IsFullBell = none →
            p.ClearStatus = none → s.Lamp = "LOSS"))
      rows doc.Scores.toList := by
  refine List.Forall₂.imp ?_ (fetchOngeki_ok tp rows doc h)
  rintro r s ⟨p, rfl, hrow⟩
  obtain ⟨-, -, -, hL, -⟩ := ongekiRow_emit_inv tp p s hrow
  have hlamp : s.Lamp = ongekiLampComboAboveBell p := by rw [hL, ongekiLamp_eq]
  refine ⟨p, rfl, ?_, hlamp, ?_, ?_, ?_⟩
  · rw [hlamp]
    unfold ongekiLampComboAboveBell
    split_ifs <;> simp
  · intro hab
    rw [hlamp]
    simp [ongekiLampComboAboveBell, flagSet, hab]
  · intro hab hfc hfb hcl
    rw [hlamp]
    have hc : clearSet p.ClearStatus = false := by
      unfold clearSet
      cases hcs : p.ClearStatus with
      | none => rfl
      | some c => simpa using hcl c hcs
    simp [ongekiLampComboAboveBell, flagSet, hab, hfc, hfb, hc]
  · intro hab hfc hfb hcl
    rw [hlamp]
    simp [ongekiLampComboAboveBell, flagSet, clearSet, hab, hfc, hfb, hcl]

/-- C18 at the one-row player `ongekiRowNoFlags`, all four flags absent. -/
theorem ongeki_lamp_total_witness :
    fetchOngekiExport timeParseSample (.ok [.ok ongekiRowNoFlags]) = .ok ongekiDocNoFlags ∧
      List.Forall₂
        (fun (r : Except String OngekiPlaylog) (s : BatchManualScoreGeki) =>
          ∃ p, r = .ok p ∧
            s.Lamp ∈ ["ALL BREAK", "FULL COMBO", "FULL BELL", "CLEAR", "LOSS"] ∧
            s.Lamp = ongekiLampComboAboveBell p ∧
            (p.IsAllBreak = some 1 → s.Lamp = "ALL BREAK") ∧
            (p.IsAllBreak ≠ some 1 → p.IsFullCombo ≠ some 1 → p.IsFullBell ≠ some 1 →
              (∀ c, p.ClearStatus = some c → c ≤ 0) → s.Lamp = "LOSS") ∧
            (p.IsAllBreak = none → p.IsFullCombo = none → p.IsFullBell = none →
              p.ClearStatus = none → s.Lamp = "LOSS"))
        [.ok ongekiRowNoFlags] ongekiDocNoFlags.Scores.toList :=
  ⟨by decide,
    ongeki_lamp_total timeParseSample [.ok ongekiRowNoFlags] ongekiDocNoFlags (by decide)⟩

/-- C19. In a document returned by `fetchChuniTachiExport`, the record of a row
has the judgements sub-object exactly when judgeCritical, judgeAttack and
judgeGuilty are present, whether or not judgeHeaven is; and then jcrit is the
`int64` sum of judgeHeaven, 0 when absent, and judgeCritical, which is their
exact sum whenever that fits in 64 bits, justice is judgeJustice, attack is
judgeAttack and miss is judgeGuilty. -/
theorem chuni_judgement_values (tp : String → Except String Time)
    (profile : Except String (Int × Int)) (rows : List (Except String ChuniPlaylog))
    (doc : BatchManualImportChuni)
    (h : fetchChuniTachiExport tp profile (.ok rows) = .ok doc) :
    List.Forall₂
      (fun p s =>
        (s.Judgements ≠ none ↔
          p.JudgeCritical ≠ none ∧ p.JudgeAttack ≠ none ∧ p.JudgeGuilty ≠ none) ∧
        ∀ j, s.Judgements = some j →
          ∃ crit just att guilty, p.JudgeCritical = some crit ∧ p.JudgeJustice = some just ∧
            p.JudgeAttack = some att ∧ p.JudgeGuilty = some guilty ∧
            j.JCrit = wrapInt64 (p.JudgeHeaven.getD 0 + crit) ∧
            (-9223372036854775808 ≤ p.JudgeHeaven.getD 0 + crit →
              p.JudgeHeaven.getD 0 + crit < 9223372036854775808 →
              j.JCrit = p.JudgeHeaven.getD 0 + crit) ∧
            j.Justice = just ∧ j.Attack = att ∧ j.Miss = guilty)
      (chuniKept tp rows) doc.Scores.toList := by
  refine List.Forall₂.imp ?_ (fetchChuni_ok tp profile rows doc h)
  intro p s hps
  obtain ⟨hreq, -, -, hs⟩ := chuniRow_emit_inv tp p s hps
  obtain ⟨-, -, -, -, hjj, -⟩ := (chuniMissingRequired_eq_false_iff p).1 hreq
  obtain ⟨just, hjj⟩ := Option.ne_none_iff_exists'.1 hjj
  have hJ : s.Judgements = chuniJudgements p := by rw [hs]
  rw [hJ]
  unfold chuniJudgements
  simp only [NullInt64.Valid, NullInt64.Int64, hjj]
  cases hc : p.JudgeCritical with
  | none => simp
  | some crit =>
    cases ha : p.JudgeAttack with
    | none => simp
    | some att =>
      cases hg : p.JudgeGuilty with
      | none => simp
      | some guilty =>
        refine ⟨by simp, ?_⟩
        intro j hj
        simp only [Option.isSome_some, Bool.and_self, if_true, Option.some.injEq,
          Option.getD_some] at hj
        subst hj
        refine ⟨crit, just, att, guilty, rfl, rfl, rfl, rfl, rfl, ?_, rfl, rfl, rfl⟩
        intro hlo hhi
        exact wrapInt64_eq_self _ hlo hhi

/-- C19 at the one-row player `chuniRowNoHeaven`: jcrit is judgeCritical. -/
theorem chuni_judgement_values_witness :
    fetchChuniTachiExport timeParseSample (.ok (1, 2)) (.ok [.ok chuniRowNoHeaven]) =
        .ok chuniDocNoHeaven ∧
      List.Forall₂
        (fun p s =>
          (s.Judgements ≠ none ↔
            p.JudgeCritical ≠ none ∧ p.JudgeAttack ≠ none ∧ p.JudgeGuilty ≠ none) ∧
          ∀ j, s.Judgements = some j →
            ∃ crit just att guilty, p.JudgeCritical = some crit ∧ p.JudgeJustice = some just ∧
              p.JudgeAttack = some att ∧ p.JudgeGuilty = some guilty ∧
              j.JCrit = wrapInt64 (p.JudgeHeaven.getD 0 + crit) ∧
              (-9223372036854775808 ≤ p.JudgeHeaven.getD 0 + crit →
                p.JudgeHeaven.getD 0 + crit < 9223372036854775808 →
                j.JCrit = p.JudgeHeaven.getD 0 + crit) ∧
              j.Justice = just ∧ j.Attack = att ∧ j.Miss = guilty)
        (chuniKept timeParseSample [.ok chuniRowNoHeaven]) chuniDocNoHeaven.Scores.toList :=
  ⟨by decide,
    chuni_judgement_values timeParseSample (.ok (1, 2)) [.ok chuniRowNoHeaven] chuniDocNoHeaven
      (by decide)⟩

/-- C20. In a document returned by `fetchOngekiExport` every row has its
record, and the record of a row without difficulty code is labelled BASIC,
the label of code 0, not UNKNOWN; the record of a row without musicId has the
identifier "0", and the record of a row without techScore has the score 0. -/
theorem ongeki_absent_columns_read_as_zero (tp : String → Except String Time)
    (rows : List (Except String OngekiPlaylog)) (doc : BatchManualImportGeki)
    (h : fetchOngekiExport tp (.ok rows) = .ok doc) :
    List.Forall₂
      (fun (r : Except String OngekiPlaylog) (s : BatchManualScoreGeki) =>
        ∃ p, r = .ok p ∧ ongekiRow tp p = .emit s ∧
          (p.Difficulty = none → s.Difficulty = "BASIC" ∧ s.Difficulty = ongekiLabelSpec 0 ∧
            s.Difficulty ≠ "UNKNOWN") ∧
          (p.MusicID = none → s.Identifier = "0") ∧ (p.TechScore = none → s.Score = 0))
      rows doc.Scores.toList := by
  refine List.Forall₂.imp ?_ (fetchOngeki_ok tp rows doc h)
  rintro r s ⟨p, rfl, hrow⟩
  obtain ⟨hI, -, hS, -, hD, -⟩ := ongekiRow_emit_inv tp p s hrow
  refine ⟨p, rfl, hrow, ?_, ?_, ?_⟩
  · intro hd
    have hb : s.Difficulty = "BASIC" := by
      rw [hD]
      simp [ongekiDifficulty, hd, NullInt32.Int32, DIFFICULTY_MAP, List.lookup]
    exact ⟨hb, by rw [hb]; rfl, by rw [hb]; decide⟩
  · intro hm
    rw [hI, hm]
    decide
  · intro ht
    rw [hS]
    simp [ht, NullInt32.Int32]

/-- C20 at the one-row player `ongekiRowNoKeys`. -/
theorem ongeki_absent_columns_read_as_zero_witness :
    fetchOngekiExport timeParseSample (.ok [.ok ongekiRowNoKeys]) = .ok ongekiDocNoKeys ∧
      List.Forall₂
        (fun (r : Except String OngekiPlaylog) (s : BatchManualScoreGeki) =>
          ∃ p, r = .ok p ∧ ongekiRow timeParseSample p = .emit s ∧
            (p.Difficulty = none → s.Difficulty = "BASIC" ∧ s.Difficulty = ongekiLabelSpec 0 ∧
              s.Difficulty ≠ "UNKNOWN") ∧
            (p.MusicID = none → s.Identifier = "0") ∧ (p.TechScore = none → s.Score = 0))
        [.ok ongekiRowNoKeys] ongekiDocNoKeys.Scores.toList :=
  ⟨by decide,
    ongeki_absent_columns_read_as_zero timeParseSample [.ok ongekiRowNoKeys] ongekiDocNoKeys
      (by decide)⟩

/-- C21 at the failing inputs. The rows `chuniRowEmptyVersion` and
`chuniRowShortVersion` have all required columns, with the empty string and
the one-character string "2" as romVersion; the slice expression
`RomVersion.String[:2]` of the WORLD'S END filter is out of bounds on both,
and `fetchChuniTachiExport` panics instead of returning. -/
theorem chuni_short_version_faults :
    chuniMissingRequired chuniRowEmptyVersion = false ∧
      chuniRowEmptyVersion.RomVersion = some "" ∧
      sliceTo chuniRowEmptyVersion.RomVersion.String 2 = none ∧
      chuniWorldsEnd chuniRowEmptyVersion = none ∧
      fetchChuniTachiExport timeParseSample (.ok (1, 2)) (.ok [.ok chuniRowEmptyVersion]) =
        .fault "slice bounds out of range" ∧
      chuniMissingRequired chuniRowShortVersion = false ∧
      chuniRowShortVersion.RomVersion = some "2" ∧
      sliceTo chuniRowShortVersion.RomVersion.String 2 = none ∧
      chuniWorldsEnd chuniRowShortVersion = none ∧
      fetchChuniTachiExport timeParseSample (.ok (1, 2)) (.ok [.ok chuniRowShortVersion]) =
        .fault "slice bounds out of range" := by
  decide

end Artemis2Tachi
